import Mathlib

/-!
# Verification of the PatchFetcher mailing-list harvester

Shallow embedding of the core of `fetchPatches.py`, `parsePatches.py` and
`data_store.py`: the mbox splitter / header parser, the thread aggregator,
the per-thread fetcher with retry/backoff, the sequential recovery pass,
the page crawler's failure handling, and the date-range validation.

Python `None`/falsiness is modelled with `Option` plus explicit truthiness
functions; Python exceptions are modelled with `Except PyErr`; epoch
timestamps are `Int`; file/network effects are modelled by explicit
environments (directory listings as `List String`, network outcomes as
oracles `Nat → ...`).
-/

set_option maxRecDepth 4000

namespace PatchFetcher

/-- Python exception classes that the modelled code can raise. -/
inductive PyErr where
  | typeError
  | stopIteration
  | unboundLocal
  | valueError
  deriving DecidableEq

/-- Python truthiness of an optional string (`None` and `""` are falsy). -/
def pyTruthyStr : Option String → Bool
  | none => false
  | some s => s ≠ ""

/-- Python truthiness of an optional int (`None` and `0` are falsy). -/
def pyTruthyInt : Option Int → Bool
  | none => false
  | some v => v ≠ 0


/-- Python's default whitespace set for `str.strip()`. -/
def pyIsSpace (c : Char) : Bool :=
  c = ' ' || c = '\t' || c = '\n' || c = '\r' || c = '\x0b' || c = '\x0c'

/-- Python `str.strip()`. -/
def pyStrip (s : String) : String :=
  (((s.toList.dropWhile pyIsSpace).reverse.dropWhile pyIsSpace).reverse).asString

/-- Python `str.startswith(p)`. -/
def pyStartsWith (s p : String) : Bool := p.toList.isPrefixOf s.toList

/-- Python `str.upper()` (ASCII). -/
def pyUpper (s : String) : String := (s.toList.map Char.toUpper).asString

/-- Python `str.lower()` (ASCII). -/
def pyLower (s : String) : String := (s.toList.map Char.toLower).asString

/-- `str.split(sep)` on char lists, fuelled by the input length so that the
definition is structurally recursive (and kernel-reducible). -/
def pySplitOnAux (sep : List Char) : Nat → List Char → List (List Char)
  | _, [] => [[]]
  | 0, l => [l]
  | fuel + 1, c :: rest =>
    if sep.isPrefixOf (c :: rest) then
      [] :: pySplitOnAux sep fuel (List.drop (sep.length - 1) rest)
    else
      match pySplitOnAux sep fuel rest with
      | [] => [[c]]
      | h :: t => (c :: h) :: t

/-- Python `str.split(sep)` for a nonempty separator. -/
def pySplitOn (s sep : String) : List String :=
  (pySplitOnAux sep.toList s.toList.length s.toList).map List.asString

/-- Substring test on char lists: Python's `sub in hay`. -/
def listContainsSub (sub : List Char) : List Char → Bool
  | [] => sub.isEmpty
  | c :: t => sub.isPrefixOf (c :: t) || listContainsSub sub t

/-- Python's `sub in hay` on strings. -/
def strContainsSub (hay sub : String) : Bool :=
  listContainsSub sub.toList hay.toList

/-! ## `parsePatches.extract_field`

`extract_field(line, field)` strips the line, matches `field:\s*(.*)`, and
splits the content with the regex `(.*?)\s*<(.+?)>` into a (name, lowercased
email) pair; if no `<...>` group is present the whole content is the name. -/

/-- Characters strictly before the first `>` of a char list (`none` if no `>`). -/
def upToGt : List Char → Option (List Char)
  | [] => none
  | c :: rest => if c = '>' then some [] else (upToGt rest).map (c :: ·)

/-- `(.+?)>`: shortest nonempty prefix followed by `>`. -/
def takeToGt : List Char → Option (List Char)
  | [] => none
  | c :: rest => (upToGt rest).map (c :: ·)

/-- `(.*?)\s*<(.+?)>` via backtracking over candidate `<` positions:
returns (chars before the matched `<`, chars inside `<...>`). -/
def splitAngle : List Char → Option (List Char × List Char)
  | [] => none
  | c :: rest =>
    if c = '<' then
      match takeToGt rest with
      | some inner => some ([], inner)
      | none =>
        match splitAngle rest with
        | some (pre, inner) => some (c :: pre, inner)
        | none => none
    else
      match splitAngle rest with
      | some (pre, inner) => some (c :: pre, inner)
      | none => none

/-- The `(name, email)` split of a header value: `re.match(r'(.*?)\s*<(.+?)>', content)`
with `group(1).strip()` and `group(2).strip().lower()`. -/
def nameEmailSplit (content : String) : Option (String × String) :=
  (splitAngle content.toList).map fun p =>
    (pyStrip p.1.asString, pyLower (pyStrip p.2.asString))

/-- `parsePatches.extract_field`. -/
def extractField (line field : String) : Option String × Option String :=
  let l := pyStrip line
  if pyStartsWith l (field ++ ":") then
    let content := pyStrip (l.drop (field.length + 1))
    match nameEmailSplit content with
    | some (n, e) => (some n, some e)
    | none => (some content, none)
  else (none, none)

/-! ## `parsePatches.parse_emails_from_mbx` -/

/-- One parsed message (`current_email` dictionary of the source). -/
structure PEmail where
  fromName : Option String
  fromEmail : Option String
  toName : String
  date : String
  subject : String
  reviewedBy : List String
  deriving DecidableEq

/-- The fresh `current_email` dictionary created at a boundary line. -/
def freshEmail : PEmail :=
  { fromName := none, fromEmail := none, toName := "", date := "", subject := "",
    reviewedBy := [] }

/-- `skipList = ["syzbot", "patchwork-bot"]`. -/
def skipNames : List String := ["syzbot", "patchwork-bot"]

/-- `any(skip_item in name for skip_item in skipList)`. -/
def pyIsSkip (n : String) : Bool := skipNames.any (fun s => strContainsSub n s)

/-- Flushing `current_email` into `emails`: raises `TypeError` when the
`From` name is `None` (Python evaluates `skip_item in None`), otherwise
appends unless the name matches the skip list. -/
def flushInto (emails : List PEmail) (ce : PEmail) : Except PyErr (List PEmail) :=
  match ce.fromName with
  | none => .error .typeError
  | some n => if pyIsSkip n then .ok emails else .ok (emails ++ [ce])

/-- A message-boundary marker line (`line.startswith("From mboxrd@z")`). -/
def isBoundary (l : String) : Bool := pyStartsWith l "From mboxrd@z"

/-- The header prefixes that end subject folding
(`next_line.startswith(("From:", "To:", "Date:", "Reviewed-by:"))`). -/
def recognizedHdr (s : String) : Bool :=
  pyStartsWith s "From:" || pyStartsWith s "To:" || pyStartsWith s "Date:" ||
    pyStartsWith s "Reviewed-by:"

/-- Scanner mode: either between header lines, or inside the subject-folding
inner loop with the accumulated (stripped) subject lines. -/
inductive PMode where
  | normal
  | folding (acc : List String)
  deriving DecidableEq

/-- State of one scan of `parse_emails_from_mbx`, including the global
identity registry `name_to_emails` / `email_to_name` of `data_store.py`
(modelled as pair lists). -/
structure ParserState where
  emails : List PEmail
  current : Option PEmail
  n2e : List (String × String)
  e2n : List (String × String)
  mode : PMode
  deriving DecidableEq

/-- `name_to_emails[name].add(email)` (set semantics). -/
def addN2E (l : List (String × String)) (n e : String) : List (String × String) :=
  if l.contains (n, e) then l else l ++ [(n, e)]

/-- `email_to_name[email] = name`. -/
def setE2N (l : List (String × String)) (e n : String) : List (String × String) :=
  if (l.map Prod.fst).contains e then
    l.map (fun p => if p.1 = e then (e, n) else p)
  else l ++ [(e, n)]

/-- The `From:`/`To:` if/elif chain of the loop body, applied to the
(possibly folding-reassigned) line. -/
def procFromTo (line : String) (st : ParserState) : ParserState :=
  match st.current with
  | none => st
  | some ce =>
    if pyStartsWith line "From:" && !(pyTruthyStr ce.fromName) then
      let ne := extractField line "From"
      let st1 := { st with current := some { ce with fromName := ne.1, fromEmail := ne.2 } }
      match ne.1 with
      | some nv =>
        if nv ≠ "" then
          match ne.2 with
          | some ev => { st1 with n2e := addN2E st1.n2e nv ev, e2n := setE2N st1.e2n ev nv }
          | none => { st1 with n2e := addN2E st1.n2e nv "unknown@example.com" }
        else st1
      | none => st1
    else if pyStartsWith line "To:" && ce.toName = "" then
      let ne := extractField line "To"
      match ne.1 with
      | some nv =>
        if nv ≠ "" then
          let st1 :=
            match ne.2 with
            | some ev => { st with n2e := addN2E st.n2e nv ev, e2n := setE2N st.e2n ev nv }
            | none => st
          { st1 with current := some { ce with toName := nv } }
        else st
      | none => st
    else st

/-- The `Date:`/`Reviewed-by:` if/elif chain of the loop body. -/
def procDateRev (line : String) (st : ParserState) : ParserState :=
  match st.current with
  | none => st
  | some ce =>
    if pyStartsWith line "Date:" && ce.date = "" then
      { st with current := some { ce with date := (extractField line "Date").1.getD "" } }
    else if pyStartsWith line "Reviewed-by:" then
      let ne := extractField line "Reviewed-by"
      match ne.1 with
      | some nv =>
        if nv ≠ "" then
          let st1 :=
            match ne.2 with
            | some ev => { st with n2e := addN2E st.n2e nv ev, e2n := setE2N st.e2n ev nv }
            | none => st
          { st1 with current := some { ce with reviewedBy := ce.reviewedBy ++ [nv] } }
        else st
      | none => st
    else st

/-- Both header chains in source order. -/
def procHdrs (line : String) (st : ParserState) : ParserState :=
  procDateRev line (procFromTo line st)

/-- One line of the `for line in file` loop.  In `folding` mode this is one
step of the inner `while True: next_line = next(file).strip()` loop; when the
fold breaks on a recognized header, that (stripped) line is re-processed as
`line` through the header chains, exactly as the source reassigns `line`.
A boundary line and a Subject line that starts folding are not re-processed
through the chains: on those lines every chain guard is false in the source. -/
def pstep (st : ParserState) (line : String) : Except PyErr ParserState :=
  match st.mode with
  | PMode.folding acc =>
    let t := pyStrip line
    let cur := st.current.map (fun ce => { ce with subject := String.intercalate " " acc })
    if t = "" then
      .ok { st with mode := PMode.normal, current := cur }
    else if recognizedHdr t then
      let st1 := { st with mode := PMode.normal, current := cur }
      .ok (procHdrs t st1)
    else
      .ok { st with mode := PMode.folding (acc ++ [t]) }
  | PMode.normal =>
    if isBoundary line then
      match st.current with
      | none => .ok { st with current := some freshEmail }
      | some ce =>
        match flushInto st.emails ce with
        | .error e => .error e
        | .ok es => .ok { st with emails := es, current := some freshEmail }
    else
      match st.current with
      | none => .ok st
      | some ce =>
        if pyStartsWith line "Subject:" && ce.subject = "" then
          .ok { st with mode := PMode.folding [(extractField line "Subject").1.getD ""] }
        else
          .ok (procHdrs line st)

/-- The whole `try:` body of `parse_emails_from_mbx`: scan all lines, flush
the last open message at end of input; reaching end of input inside subject
folding is the `StopIteration` of `next(file)`.  The returned state is the
value of the outer mutable locals at the point the exception (if any) was
raised. -/
def parseLoop : ParserState → List String → ParserState × Option PyErr
  | st, [] =>
    match st.mode with
    | .folding _ => (st, some .stopIteration)
    | .normal =>
      match st.current with
      | none => (st, none)
      | some ce =>
        match flushInto st.emails ce with
        | .ok es => ({ st with emails := es }, none)
        | .error e => (st, some e)
  | st, l :: ls =>
    match pstep st l with
    | .ok st1 => parseLoop st1 ls
    | .error e => (st, some e)

/-- Initial locals of `parse_emails_from_mbx`. -/
def initPS : ParserState :=
  { emails := [], current := none, n2e := [], e2n := [], mode := .normal }

/-- `parse_emails_from_mbx`, seen as raising: the body with the
`except Exception` handler stripped.  `.error` carries the partial `emails`
list live at the raise site. -/
def parseBodyE (lines : List String) : Except (PyErr × List PEmail) (List PEmail) :=
  match parseLoop initPS lines with
  | (st, none) => .ok st.emails
  | (st, some e) => .error (e, st.emails)

/-- `parse_emails_from_mbx(file)` over the file's lines: the
`except Exception` handler prints and the function returns `emails`. -/
def parse_emails_from_mbx (lines : List String) : List PEmail :=
  match parseBodyE lines with
  | .ok es => es
  | .error p => p.2

/-! ## `parsePatches.update_patches_data`

The per-thread/per-author statistics of `data_store.py` plus the
`patches_data_buffer` export rows.  `parse_date` (dateutil plus the fixed
timezone table) is abstracted as a pure oracle `pd : String → Option Int`
from the raw `Date` header string to epoch seconds (`None` on failure),
which is exactly the interface the aggregator consumes. -/

/-- One row of `patches_data_buffer`. -/
structure TabRow where
  rowFrom : String
  rowTo : String
  rowDate : String
  rowSubject : String
  rowReviewedBy : String
  deriving DecidableEq

/-- The process-wide accumulators of `data_store.py` that
`update_patches_data` mutates. -/
structure AggState where
  initiators : String → Nat
  responders : String → List String
  respCounts : String → Nat
  times : String → Option (Option Int × Option Int)
  rows : List TabRow
  deriving Inhabited

/-- Empty accumulators (fresh `defaultdict`s / dict / buffer). -/
def initAgg : AggState :=
  { initiators := fun _ => 0, responders := fun _ => [], respCounts := fun _ => 0,
    times := fun _ => none, rows := [] }

/-- `author_name = ...; if not author_name: author_name = "Unknown Author"`. -/
def resolvedName (o : Option String) : String :=
  match o with
  | none => "Unknown Author"
  | some s => if s = "" then "Unknown Author" else s

/-- `thread_responders[author_name].add(thread_id)` (set semantics). -/
def addResp (l : List String) (tid : String) : List String :=
  if l.contains tid then l else l ++ [tid]

/-- The effective date of one message in the loop:
`date = parse_date(...); if not date: date = thread_start_date`. -/
def effDate (pd : String → Option Int) (d0 : Option Int) (e : PEmail) : Option Int :=
  if pyTruthyInt (pd e.date) then pd e.date else d0

/-- The `TabularRow` built for one message (the `row` dictionary). -/
def rowOf (threadId : String) (e : PEmail) : TabRow :=
  { rowFrom := resolvedName e.fromName, rowTo := e.toName, rowDate := e.date,
    rowSubject := threadId, rowReviewedBy := String.intercalate ", " e.reviewedBy }

/-- The tail of the loop body after the timing update: response attribution
(`idx > 0` and a resolved name different from the initiator's) followed by
the unconditional buffer row. -/
def attribStep (threadId threadAuthor : String) (idx : Nat) (e : PEmail)
    (s : AggState) : AggState :=
  let author := resolvedName e.fromName
  let s1 :=
    if idx > 0 && author ≠ threadAuthor then
      { s with respCounts := fun k => if k = threadId then s.respCounts k + 1 else s.respCounts k,
               responders := fun k => if k = author then addResp (s.responders k) threadId else s.responders k }
    else s
  { s1 with rows := s1.rows ++ [rowOf threadId e] }

/-- The body of `for idx, email in enumerate(emails)` for one message.
`max(thread_times[thread_id][1], date)` raises `TypeError` when the stored
last-response time is `None`; the handler prints and `continue`s, skipping
the response attribution and the buffer row for that message. -/
def updEmail (pd : String → Option Int) (threadId threadAuthor : String)
    (d0 : Option Int) (st : AggState) (idx : Nat) (e : PEmail) : AggState :=
  let date := effDate pd d0 e
  let t := (st.times threadId).getD (none, none)
  if pyTruthyInt date then
    match t.2 with
    | none => st
    | some l =>
      attribStep threadId threadAuthor idx e
        { st with times := fun k => if k = threadId then some (t.1, some (max l (date.getD 0))) else st.times k }
  else attribStep threadId threadAuthor idx e st

/-- Index-carrying fold over the thread's messages. -/
def foldIdx (f : AggState → Nat → PEmail → AggState) : AggState → Nat → List PEmail → AggState
  | st, _, [] => st
  | st, i, e :: es => foldIdx f (f st i e) (i + 1) es

/-- `parsePatches.update_patches_data(emails, file_path)`: aggregate one
file's parsed messages into the process-wide state. -/
def update_patches_data (pd : String → Option Int) (st : AggState)
    (emails : List PEmail) : AggState :=
  match emails with
  | [] => st
  | e0 :: _ =>
    let threadAuthor := resolvedName e0.fromName
    let threadId := pyStrip e0.subject
    if threadId = "" then st
    else
      let d0 := pd e0.date
      let st1 := { st with initiators := fun k => if k = threadAuthor then st.initiators k + 1 else st.initiators k }
      let t0 := (st1.times threadId).getD (d0, d0)
      let st2 := { st1 with times := fun k => if k = threadId then some t0 else st1.times k }
      let st3 :=
        if pyTruthyInt d0 then
          { st2 with times := fun k => if k = threadId then some (d0, t0.2) else st2.times k }
        else st2
      foldIdx (updEmail pd threadId threadAuthor d0) st3 0 emails

/-- `walk_and_process`: aggregate a sequence of files in order (each file's
messages obtained from the splitter). -/
def walkFiles (pd : String → Option Int) (files : List (List PEmail)) : AggState :=
  files.foldl (update_patches_data pd) initAgg

/-! ## `fetchPatches.download_mbx_thread`

Network and filesystem effects are explicit: the thread directory's
contents are a `List String` of file names, and the outcome of the
`requests.get` of attempt `i` is given by an oracle `net i`.  An attempt
outcome is either a full success (download, decompress, clean-up and audit
note all succeed), an `HTTPError` from `raise_for_status` (which leaves
`response` bound, carrying the status), a `RequestException` raised by
`requests.get` itself before `response` is assigned (connection failure /
timeout), an `OSError` during the file operations, or any other exception
after the response was received. -/

inductive AttemptRes where
  | success
  | httpErr (status : Nat)
  | reqErrNoResp
  | osErr
  | otherErr
  deriving DecidableEq

/-- Return value of `download_mbx_thread`: the `"skipped"` sentinel, the
thread directory path, or Python `None`. -/
inductive DlRet where
  | skipped
  | dirPath
  | noneRet
  deriving DecidableEq

/-- Observable outcome of one `download_mbx_thread` call: the returned
value (or uncaught exception), the number of `requests.get` calls
performed, and the directory contents afterwards. -/
structure DlOutcome where
  result : Except PyErr DlRet
  gets : Nat
  files : List String

/-- Python `str.endswith(suffix)`. -/
def pyEndsWith (s suffix : String) : Bool := suffix.toList.isSuffixOf s.toList

/-- `thread_title[:200].rsplit(' ', 1)[0]` (keep everything before the last
space; the whole string when it has no space). -/
def cutAtLastSpace (cs : List Char) : List Char :=
  if cs.contains ' ' then ((cs.reverse.dropWhile (fun c => c ≠ ' ')).tail).reverse else cs

/-- `re.sub(r'[^a-zA-Z0-9-_]', '_', ·)` on one character. -/
def sanitizeChar (c : Char) : Char :=
  if c.isAlpha || c.isDigit || c = '-' || c = '_' then c else '_'

/-- Python `str.strip('_')`. -/
def stripUnderscores (cs : List Char) : List Char :=
  ((cs.dropWhile (fun c => c = '_')).reverse.dropWhile (fun c => c = '_')).reverse

/-- The directory-name sanitization of `download_mbx_thread`. -/
def sanitizeTitle (t : String) : String :=
  let t1 := if t.length > 200 then (cutAtLastSpace (t.toList.take 200)).asString else t
  (stripUnderscores (t1.toList.map sanitizeChar)).asString

/-- Python `str.rstrip('/')`. -/
def rstripSlash (s : String) : String :=
  ((s.toList.reverse.dropWhile (fun c => c = '/')).reverse).asString

/-- Python `str.lstrip('/')`. -/
def lstripSlash (s : String) : String :=
  (s.toList.dropWhile (fun c => c = '/')).asString

/-- `thread_url.rstrip('/').split("/")[-2]`. -/
def threadIdOf (url : String) : String :=
  let parts := pySplitOn (rstripSlash url) "/"
  parts.getD (parts.length - 2) ""

/-- The `for attempt in range(max_retries + 1)` loop of
`download_mbx_thread`.  `lastStatus` models the `response` local: it is
`none` until a `requests.get` call has assigned it; the
`except RequestException` handler reads `response.status_code`, which
raises `UnboundLocalError` when no response was ever bound.  Each
iteration first removes a stale `error.txt` (`FileNotFoundError` passed).
The fuel equals the remaining iterations; exhaustion is the (unreachable)
fall-off-the-end `None`. -/
def dlAttempts (threadId : String) (net : Nat → AttemptRes) (maxRetries : Nat) :
    Nat → Nat → Option Nat → Nat → List String → DlOutcome
  | 0, _, _, gets, files => { result := .ok .noneRet, gets := gets, files := files }
  | fuel + 1, attempt, lastStatus, gets, files =>
    let files1 := files.filter (fun f => f ≠ "error.txt")
    match net attempt with
    | .success =>
      { result := .ok .dirPath, gets := gets + 1,
        files := files1 ++ [threadId ++ ".mbx", "download_info.txt"] }
    | .httpErr s =>
      if s = 503 && attempt < maxRetries then
        dlAttempts threadId net maxRetries fuel (attempt + 1) (some s) (gets + 1) files1
      else
        { result := .ok .noneRet, gets := gets + 1, files := files1 ++ ["error.txt"] }
    | .reqErrNoResp =>
      match lastStatus with
      | none => { result := .error .unboundLocal, gets := gets + 1, files := files1 }
      | some s =>
        if s = 503 && attempt < maxRetries then
          dlAttempts threadId net maxRetries fuel (attempt + 1) (some s) (gets + 1) files1
        else
          { result := .ok .noneRet, gets := gets + 1, files := files1 ++ ["error.txt"] }
    | .osErr =>
      { result := .ok .noneRet, gets := gets + 1, files := files1 ++ ["error.txt"] }
    | .otherErr =>
      { result := .ok .noneRet, gets := gets + 1, files := files1 ++ ["error.txt"] }

/-- `fetchPatches.download_mbx_thread(thread_url, base_url, thread_title,
output_dir, max_retries)`.  `dirFiles` is the listing of the (created)
thread directory. -/
def download_mbx_thread (threadUrl threadTitle : String) (dirFiles : List String)
    (net : Nat → AttemptRes) (maxRetries : Nat) : DlOutcome :=
  if pyUpper (sanitizeTitle threadTitle) = "UNKNOWN" then
    { result := .ok .skipped, gets := 0, files := dirFiles }
  else if dirFiles.any (fun f => pyEndsWith f ".mbx") then
    { result := .ok .dirPath, gets := 0, files := dirFiles }
  else
    dlAttempts (threadIdOf threadUrl) net maxRetries (maxRetries + 1) 0 none 0 dirFiles

/-! ## `fetchPatches.fetch_and_parse_threads` recovery stage

`process_thread(thread)` returns the pair `(retVal, thread)`; the recovery
loop then tests `if not process_thread(threadInfo)`. -/

/-- The inner `process_thread` helper: returns the tuple
`(download result, thread info)`. -/
def process_thread_pair {A : Type} (fetch : A → Option String) (t : A) :
    Option String × A := (fetch t, t)

/-- Python truthiness of a 2-tuple: a nonempty tuple is always truthy,
whatever its components. -/
def pyTruthyPair {A B : Type} (_ : A × B) : Bool := true

/-- One recovery pass: `for threadInfo in threadsWithErrors: if not
process_thread(threadInfo): withErrors.append(threadInfo)`. -/
def recoveryPassOnce {A : Type} (fetch : A → Option String) (ts withErrors : List A) :
    List A :=
  ts.foldl
    (fun acc t =>
      if !(pyTruthyPair (process_thread_pair fetch t)) then acc ++ [t] else acc)
    withErrors

/-- The `while threadsWithErrors and repeatCount:` loop.  `fetch p`
gives the download outcomes during pass number `p`.  Returns (number of
passes executed, final `threadsWithErrors`).  In the source
`threadsWithErrors = withErrors` aliases the two names to one list; since
the truthiness test above never lets an append happen, the value-passing
model coincides with the aliased mutation. -/
def recoveryGo {A : Type} (fetch : Nat → A → Option String) :
    Nat → Nat → List A → List A → Nat × List A
  | _, 0, tw, _ => (0, tw)
  | passIdx, rc + 1, tw, we =>
    if tw.isEmpty then (0, tw)
    else
      let we2 := recoveryPassOnce (fetch passIdx) tw we
      let r := recoveryGo fetch (passIdx + 1) rc we2 we2
      (r.1 + 1, r.2)

/-- The whole recovery stage (`if threadsWithErrors: repeatCount = 3;
withErrors = []; while ...`). -/
def recoveryStage {A : Type} (fetch : Nat → A → Option String) (threadsWithErrors : List A) :
    Nat × List A :=
  if threadsWithErrors.isEmpty then (0, threadsWithErrors)
  else recoveryGo fetch 0 3 threadsWithErrors []

/-! ## `fetchPatches.fetch_all_threads` (page crawler)

The HTML layer is abstracted: a fetched-and-parsed page is its extracted
topic links plus the `rel="next"` href, and `getPage url` is the combined
`requests.get` / `raise_for_status` / `BeautifulSoup` outcome for `url`.
`strptime("%Y%m%d%H%M%S")` and `int(...)` on a cursor string are both
modelled by one numeric-parse oracle `strp` (on a cursor accepted by
`strptime` both succeed and numeric order equals chronological order). -/

structure PageData where
  links : List (String × String)
  nextHref : Option String
  deriving DecidableEq

inductive GetRes where
  | ok (pd : PageData)
  | httpErr (status : Nat)
  | otherExc
  deriving DecidableEq

inductive CrawlEnd where
  | returned (threads : List (String × String))
  | raised (e : PyErr)
  | fuelOut
  deriving DecidableEq

/-- Mutable locals of the crawl loop. -/
structure CrawlSt where
  threadData : List (String × String)
  seen : List String
  cache : List (String × List (String × String))
  checkCached : Bool
  newestCached : Nat
  oldestCached : Nat
  soup : Option PageData

/-- Insert a page's topic links: each url not seen yet is appended to
`thread_data` and `cachedTopics`; reports whether anything new was found
(`cacheFileNeedsUpdate`). -/
def insertLinks (links : List (String × String)) (st : CrawlSt) : CrawlSt × Bool :=
  links.foldl
    (fun acc li =>
      if acc.1.seen.contains li.1 then acc
      else
        ({ acc.1 with threadData := acc.1.threadData ++ [li],
                      seen := acc.1.seen ++ [li.1] }, true))
    (st, false)

/-- The crawl loop of `fetch_all_threads`.  One fuel unit per iteration of
`while next_page:`; `nextPage = none` models a falsy `next_page`.  On a
non-503 `HTTPError` the handler body is skipped and control falls through
to `extract_topic_threads(soup)` with `soup` untouched: unbound
(`UnboundLocalError`) on the first iteration, stale afterwards. -/
def crawlLoop (getPage : String → GetRes) (strp : String → Option Nat)
    (baseUrl : String) (cacheOn : Bool) (cutoff : Nat) :
    Nat → Option String → CrawlSt → CrawlEnd
  | 0, _, _ => .fuelOut
  | _ + 1, none, st => .returned st.threadData
  | fuel + 1, some url, st =>
    let afterFetch : CrawlSt → CrawlEnd := fun st1 =>
      match st1.soup with
      | none => .raised .unboundLocal
      | some pd =>
        let ins := insertLinks pd.links st1
        let st2 := ins.1
        let st3 :=
          if cacheOn && ins.2 && url ≠ baseUrl then
            { st2 with cache := st2.cache ++ [(url, pd.links)] }
          else st2
        match pd.nextHref with
        | none => crawlLoop getPage strp baseUrl cacheOn cutoff fuel none st3
        | some href =>
          let np := if pyStartsWith href "http" then href
                    else rstripSlash baseUrl ++ "/" ++ lstripSlash href
          if strContainsSub np "t=" then
            let ts := (pySplitOn np "t=").getLastD ""
            match strp ts with
            | none => .returned st3.threadData
            | some pageDate =>
              if st3.checkCached && pageDate < st3.newestCached then
                let ts2 := toString st3.oldestCached
                match strp ts2 with
                | none => .returned st3.threadData
                | some pageDate2 =>
                  let np2 := ((pySplitOn np "t=").headI) ++ "t=" ++ ts2
                  if pageDate2 < cutoff then .returned st3.threadData
                  else crawlLoop getPage strp baseUrl cacheOn cutoff fuel (some np2)
                    { st3 with checkCached := false }
              else
                if pageDate < cutoff then .returned st3.threadData
                else crawlLoop getPage strp baseUrl cacheOn cutoff fuel (some np) st3
          else crawlLoop getPage strp baseUrl cacheOn cutoff fuel (some np) st3
    match getPage url with
    | .httpErr s =>
      if s = 503 then crawlLoop getPage strp baseUrl cacheOn cutoff fuel (some url) st
      else afterFetch st
    | .otherExc => .returned st.threadData
    | .ok pd => afterFetch { st with soup := some pd }

/-- Cache seeding of `fetch_all_threads` (dedup cached links, compute the
newest/oldest cached cursors). -/
def seedFromCache (strp : String → Option Nat)
    (cache : List (String × List (String × String))) : CrawlSt :=
  let st0 : CrawlSt :=
    { threadData := [], seen := [], cache := cache, checkCached := !cache.isEmpty,
      newestCached := 0, oldestCached := 99999999999999, soup := none }
  cache.foldl
    (fun st entry =>
      let st1 := (insertLinks entry.2 st).1
      match strp ((pySplitOn entry.1 "t=").getLastD "") with
      | none => st1
      | some ts =>
        { st1 with newestCached := max st1.newestCached ts,
                   oldestCached := min st1.oldestCached ts })
    st0

/-- `fetchPatches.fetch_all_threads(base_url, start_date, end_date,
cacheFileName)`: first page from the optional start cursor, then the loop. -/
def fetch_all_threads (getPage : String → GetRes) (strp : String → Option Nat)
    (baseUrl : String) (startTs : Option Nat) (cutoff : Nat) (cacheOn : Bool)
    (cache : List (String × List (String × String))) (fuel : Nat) : CrawlEnd :=
  let firstPage :=
    match startTs with
    | some t => rstripSlash baseUrl ++ "/?t=" ++ toString t
    | none => baseUrl
  crawlLoop getPage strp baseUrl cacheOn cutoff fuel (some firstPage)
    (seedFromCache strp cache)

/-! ## `fetchPatches.fetch_and_parse_threads` date validation -/

/-- The externally visible stages of `fetch_and_parse_threads` that follow
the date validation. -/
inductive FpEffect where
  | makedirs
  | fetchAllThreads
  | processThreads
  deriving DecidableEq

/-- The prefix of `fetch_and_parse_threads`: parse the two dates (ordinals
as `Nat`, `start_date_obj` defaulting to `datetime.now()`), raise
`ValueError` when `start_date_obj <= oldest_date_obj`, and only then create
the output directory, crawl the index and download the threads. -/
def fetch_and_parse_threads_stages (now : Nat) (startDate : Option Nat)
    (oldestDate : Nat) : Except PyErr (List FpEffect) :=
  let s := startDate.getD now
  if s ≤ oldestDate then .error .valueError
  else .ok [FpEffect.makedirs, FpEffect.fetchAllThreads, FpEffect.processThreads]

/-! ## Helper lemmas -/

theorem isPrefixOf_append_self (l t : List Char) : l.isPrefixOf (l ++ t) = true := by
  induction l with
  | nil => simp [List.isPrefixOf]
  | cons c cs ih => simp [List.isPrefixOf, ih]

theorem pyEndsWith_append_self (s t : String) : pyEndsWith (s ++ t) t = true := by
  unfold pyEndsWith
  show t.data.isSuffixOf (s ++ t).data = true
  rw [String.data_append]
  unfold List.isSuffixOf
  rw [List.reverse_append]
  exact isPrefixOf_append_self t.data.reverse s.data.reverse

/-! ## C9 -/

/-- C9: `fetch_and_parse_threads` validates its date range first: whenever
the parsed start date (or the current time when absent) is not strictly
newer than the parsed oldest date, it raises `ValueError` and none of the
later stages (output-directory creation, index crawl, thread downloads)
happen. -/
theorem c9_date_validation (now : Nat) (startDate : Option Nat) (oldestDate : Nat)
    (h : startDate.getD now ≤ oldestDate) :
    fetch_and_parse_threads_stages now startDate oldestDate = .error .valueError := by
  unfold fetch_and_parse_threads_stages
  simp [h]

theorem c9_date_validation_witness :
    Option.getD (none : Option Nat) 20250101 ≤ 20250102 ∧
      fetch_and_parse_threads_stages 20250101 none 20250102 = .error .valueError :=
  ⟨by decide, c9_date_validation 20250101 none 20250102 (by decide)⟩

/-! ## C2 -/

/-- C2 fails on the code: a `RequestException` raised by `requests.get`
itself on the very first attempt (connection failure / timeout, so that the
local `response` was never assigned) makes the `except RequestException`
handler evaluate `response.status_code`, which raises `UnboundLocalError`
to the caller instead of writing an error note and returning `None`. -/
theorem c2_download_raises_unbound_local :
    (download_mbx_thread "/netdev/t1/T/" "Some Thread" []
        (fun _ => AttemptRes.reqErrNoResp) 5).result
      = Except.error PyErr.unboundLocal := by rfl

/-! ## C3 -/

/-- C3 fails on the code: `process_thread` returns the tuple
`(retVal, thread)`, and a nonempty tuple is always truthy, so
`if not process_thread(threadInfo)` never records a failure.  With one
thread whose re-fetch fails on every pass, the recovery stage executes
exactly one pass (not three) and ends with an empty failure list. -/
theorem c3_recovery_single_pass :
    recoveryStage (fun _ _ => (none : Option String)) ["t1"] = (1, ([] : List String)) := by
  rfl

/-! ## C5 -/

/-- C5's 503 half holds (an always-503 page is retried forever, so the
crawl never finishes for any amount of fuel), but its non-503 half fails on
the code: a non-503 `HTTPError` (here 404 on the very first page) matches
the `except HTTPError` clause whose body only handles 503, falls through to
`extract_topic_threads(soup)` with `soup` never assigned, and the crawl
raises `UnboundLocalError` instead of returning the partial result. -/
theorem c5_crawl_error_handling :
    (∀ fuel st url,
        crawlLoop (fun _ => GetRes.httpErr 503) (fun _ => none)
          "https://lore.kernel.org/netdev" false 0 fuel (some url) st = .fuelOut)
    ∧ fetch_all_threads (fun _ => GetRes.httpErr 404) (fun _ => none)
        "https://lore.kernel.org/netdev" none 0 false [] 10
      = CrawlEnd.raised PyErr.unboundLocal := by
  constructor
  · intro fuel
    induction fuel with
    | zero => intro st url; rfl
    | succ n ih =>
      intro st url
      show crawlLoop _ _ _ _ _ (n + 1) (some url) st = _
      rw [crawlLoop]
      simpa using ih st url
  · rfl

/-! ## C6 -/

/-- Unfolding of one iteration of the retry loop. -/
theorem dlAttempts_succ (threadId : String) (net : Nat → AttemptRes)
    (maxRetries fuel attempt : Nat) (lastStatus : Option Nat) (gets : Nat)
    (files : List String) :
    dlAttempts threadId net maxRetries (fuel + 1) attempt lastStatus gets files
      = (let files1 := files.filter (fun f => f ≠ "error.txt")
         match net attempt with
         | .success =>
           { result := .ok .dirPath, gets := gets + 1,
             files := files1 ++ [threadId ++ ".mbx", "download_info.txt"] }
         | .httpErr s =>
           if s = 503 && attempt < maxRetries then
             dlAttempts threadId net maxRetries fuel (attempt + 1) (some s) (gets + 1) files1
           else
             { result := .ok .noneRet, gets := gets + 1, files := files1 ++ ["error.txt"] }
         | .reqErrNoResp =>
           match lastStatus with
           | none => { result := .error .unboundLocal, gets := gets + 1, files := files1 }
           | some s =>
             if s = 503 && attempt < maxRetries then
               dlAttempts threadId net maxRetries fuel (attempt + 1) (some s) (gets + 1) files1
             else
               { result := .ok .noneRet, gets := gets + 1, files := files1 ++ ["error.txt"] }
         | .osErr =>
           { result := .ok .noneRet, gets := gets + 1, files := files1 ++ ["error.txt"] }
         | .otherErr =>
           { result := .ok .noneRet, gets := gets + 1, files := files1 ++ ["error.txt"] }) := by
  rfl

/-- C6: if the thread directory already holds a `.mbx` artifact,
`download_mbx_thread` returns the directory immediately with zero network
requests; and from a clean directory, a successful fetch followed by a
second call performs exactly one network download in total (the second
call sees the `.mbx` artifact and returns without any request). -/
theorem c6_idempotent_fetch
    (threadUrl title : String) (dirFiles : List String)
    (net net2 : Nat → AttemptRes) (mr : Nat)
    (hterm : pyUpper (sanitizeTitle title) ≠ "UNKNOWN") :
    ((dirFiles.any (fun f => pyEndsWith f ".mbx")) = true →
      download_mbx_thread threadUrl title dirFiles net mr
        = { result := .ok .dirPath, gets := 0, files := dirFiles })
    ∧ ((dirFiles.any (fun f => pyEndsWith f ".mbx")) = false → net 0 = .success →
      (download_mbx_thread threadUrl title dirFiles net mr).gets = 1
      ∧ (download_mbx_thread threadUrl title dirFiles net mr).result = .ok .dirPath
      ∧ (download_mbx_thread threadUrl title
          (download_mbx_thread threadUrl title dirFiles net mr).files net2 mr).gets = 0
      ∧ (download_mbx_thread threadUrl title
          (download_mbx_thread threadUrl title dirFiles net mr).files net2 mr).result
            = .ok .dirPath) := by
  constructor
  · intro hmbx
    unfold download_mbx_thread
    rw [if_neg hterm, if_pos hmbx]
  · intro hmbx hnet
    have h1 : download_mbx_thread threadUrl title dirFiles net mr
        = { result := .ok .dirPath, gets := 1,
            files := dirFiles.filter (fun f => f ≠ "error.txt")
              ++ [threadIdOf threadUrl ++ ".mbx", "download_info.txt"] } := by
      unfold download_mbx_thread
      rw [if_neg hterm, if_neg (by rw [hmbx]; exact Bool.false_ne_true)]
      rw [dlAttempts_succ]
      rw [hnet]
    have hany2 : (((download_mbx_thread threadUrl title dirFiles net mr).files).any
        (fun f => pyEndsWith f ".mbx")) = true := by
      rw [h1]
      apply List.any_eq_true.mpr
      refine ⟨threadIdOf threadUrl ++ ".mbx", ?_, ?_⟩
      · exact List.mem_append_right _ (List.mem_cons_self _ _)
      · exact pyEndsWith_append_self _ _
    have h2 : ∀ fls : List String, (fls.any (fun f => pyEndsWith f ".mbx")) = true →
        download_mbx_thread threadUrl title fls net2 mr
          = { result := .ok .dirPath, gets := 0, files := fls } := by
      intro fls hf
      unfold download_mbx_thread
      rw [if_neg hterm, if_pos hf]
    refine ⟨by rw [h1], by rw [h1], by rw [h2 _ hany2], by rw [h2 _ hany2]⟩

theorem c6_idempotent_fetch_witness :
    (download_mbx_thread "/netdev/t1/T/" "Title A" ["old.mbx"]
        (fun _ => AttemptRes.success) 5).gets = 0
    ∧ (download_mbx_thread "/netdev/t1/T/" "Title A" []
        (fun _ => AttemptRes.success) 5).gets = 1
    ∧ (download_mbx_thread "/netdev/t1/T/" "Title A"
        (download_mbx_thread "/netdev/t1/T/" "Title A" []
          (fun _ => AttemptRes.success) 5).files (fun _ => AttemptRes.success) 5).gets = 0 := by
  have h := c6_idempotent_fetch "/netdev/t1/T/" "Title A" ["old.mbx"]
    (fun _ => AttemptRes.success) (fun _ => AttemptRes.success) 5 (by decide)
  have h2 := c6_idempotent_fetch "/netdev/t1/T/" "Title A" []
    (fun _ => AttemptRes.success) (fun _ => AttemptRes.success) 5 (by decide)
  refine ⟨?_, ?_, ?_⟩
  · rw [h.1 (by decide)]
  · exact (h2.2 (by decide) rfl).1
  · exact (h2.2 (by decide) rfl).2.2.1

/-! ## C10 -/

/-- The two-boundary-then-crash prefix used to exhibit the partial-result
behaviour of `parse_emails_from_mbx`. -/
def c10Prefix : List String :=
  ["From mboxrd@z x", "From: Alice <a@x.com>", "From mboxrd@z y", "From mboxrd@z z"]

/-- The one message fully parsed before the error in `c10Prefix`. -/
def c10Alice : PEmail :=
  { fromName := some "Alice", fromEmail := some "a@x.com", toName := "",
    date := "", subject := "", reviewedBy := [] }

/-- Intermediate scanner states for the `c10Prefix` trace. -/
def c10St1 : ParserState :=
  { emails := [], current := some freshEmail, n2e := [], e2n := [], mode := PMode.normal }

def c10St2 : ParserState :=
  { emails := [], current := some c10Alice, n2e := [("Alice", "a@x.com")],
    e2n := [("a@x.com", "Alice")], mode := PMode.normal }

def c10St3 : ParserState :=
  { emails := [c10Alice], current := some freshEmail, n2e := [("Alice", "a@x.com")],
    e2n := [("a@x.com", "Alice")], mode := PMode.normal }

/-- C10: `parse_emails_from_mbx` never propagates an exception: for every
input its value is either the fully parsed list or the partial list live at
the raise site (first conjunct); and on any input extending `c10Prefix` —
whose fourth line flushes a message with no `From` name, raising
`TypeError` inside the body — the caller still receives the one message
parsed before the error, whatever comes after (second conjunct). -/
theorem c10_parse_never_raises :
    (∀ lines : List String,
      parseBodyE lines = .ok (parse_emails_from_mbx lines)
      ∨ ∃ e, parseBodyE lines = .error (e, parse_emails_from_mbx lines))
    ∧ ∀ rest : List String,
        parse_emails_from_mbx (c10Prefix ++ rest) = [c10Alice]
        ∧ parseBodyE (c10Prefix ++ rest) = .error (PyErr.typeError, [c10Alice]) := by
  constructor
  · intro lines
    cases h : parseBodyE lines with
    | ok es =>
      have hp : parse_emails_from_mbx lines = es := by
        unfold parse_emails_from_mbx
        rw [h]
      left
      rw [hp]
    | error p =>
      have hp : parse_emails_from_mbx lines = p.2 := by
        unfold parse_emails_from_mbx
        rw [h]
      right
      exact ⟨p.1, by rw [hp]⟩
  · intro rest
    have h1 : pstep initPS "From mboxrd@z x" = .ok c10St1 := by rfl
    have h2 : pstep c10St1 "From: Alice <a@x.com>" = .ok c10St2 := by rfl
    have h3 : pstep c10St2 "From mboxrd@z y" = .ok c10St3 := by rfl
    have h4 : pstep c10St3 "From mboxrd@z z" = .error PyErr.typeError := by rfl
    have hloop : parseLoop initPS (c10Prefix ++ rest)
        = (c10St3, some PyErr.typeError) := by
      simp only [c10Prefix, List.cons_append, List.nil_append]
      simp only [parseLoop, h1, h2, h3, h4]
    have hb : parseBodyE (c10Prefix ++ rest) = .error (PyErr.typeError, [c10Alice]) := by
      unfold parseBodyE
      rw [hloop]
      rfl
    constructor
    · unfold parse_emails_from_mbx
      rw [hb]
    · exact hb

/-! ## C1 / C4 / C8 counterexamples

The common root cause: `thread_times[thread_id][1]` can be `None` while a
message's effective date is truthy (initiator date unparseable, later date
parseable); `max(None, date)` then raises `TypeError`, whose handler
`continue`s, skipping the response attribution and the buffer row of that
message and leaving `lastResponseTime` unset forever. -/

def c1pd : String → Option Int := fun s => if s = "Mon, 1 Jan 2024 02:00:00 GMT" then some 1704074400 else none

def c1e0 : PEmail :=
  { fromName := some "Alice", fromEmail := some "a@x.com", toName := "",
    date := "not-a-date", subject := "T", reviewedBy := [] }

def c1e1 : PEmail :=
  { fromName := some "Bob", fromEmail := some "b@y.com", toName := "",
    date := "Mon, 1 Jan 2024 02:00:00 GMT", subject := "Re: T", reviewedBy := [] }

/-- C1 fails on the code: in a two-message thread whose initiator date does
not parse and whose second message (index 1, distinct resolved name, date
parses) exists, the response counter stays 0 and the thread is not added to
the responder's set — the `TypeError → continue` path skips the
attribution. -/
theorem c1_counterexample :
    resolvedName c1e1.fromName ≠ resolvedName c1e0.fromName
    ∧ pyStrip c1e0.subject = "T"
    ∧ (update_patches_data c1pd initAgg [c1e0, c1e1]).respCounts "T" = 0
    ∧ ((update_patches_data c1pd initAgg [c1e0, c1e1]).responders "Bob").contains "T"
        = false := by
  refine ⟨by decide, by rfl, by rfl, by rfl⟩

def c4pd : String → Option Int := fun s => if s = "2 Jan 2024 00:00:00 GMT" then some 1704153600 else none

def c4e0 : PEmail :=
  { fromName := some "Ann", fromEmail := some "ann@x.com", toName := "",
    date := "garbled", subject := "T4", reviewedBy := [] }

def c4e1 : PEmail :=
  { fromName := some "Ben", fromEmail := some "ben@y.com", toName := "",
    date := "2 Jan 2024 00:00:00 GMT", subject := "Re: T4", reviewedBy := [] }

/-- C4 fails on the code: after processing one file whose second message
yields a parseable date (the initiator's does not), the thread record is
`[None, None]` — a message of the thread yielded a parseable date, yet
`lastResponseTime` (and `startTime`) remain unset, so
`lastResponseTime >= startTime` does not hold as two set values. -/
theorem c4_counterexample :
    ([c4e0, c4e1].any (fun e => (c4pd e.date).isSome)) = true
    ∧ (walkFiles c4pd [[c4e0, c4e1]]).times "T4" = some (none, none) := by
  exact ⟨by rfl, by rfl⟩

def c8pd : String → Option Int := fun s => if s = "3 Jan 2024 10:00:00 GMT" then some 1704276000 else none

def c8e0 : PEmail :=
  { fromName := some "Cara", fromEmail := some "c@x.com", toName := "lkml",
    date := "mangled", subject := "T8", reviewedBy := [] }

def c8e1 : PEmail :=
  { fromName := some "Dave", fromEmail := some "d@y.com", toName := "lkml",
    date := "3 Jan 2024 10:00:00 GMT", subject := "Re: T8", reviewedBy := ["Eve"] }

/-- C8 fails on the code: the aggregation of this two-message file is not
discarded (nonempty thread identity), yet only one `TabularRow` is
buffered — the second message is dropped by the `TypeError → continue`
path, so not every message yields a row. -/
theorem c8_counterexample :
    pyStrip c8e0.subject ≠ ""
    ∧ (update_patches_data c8pd initAgg [c8e0, c8e1]).rows
        = [{ rowFrom := "Cara", rowTo := "lkml", rowDate := "mangled",
             rowSubject := "T8", rowReviewedBy := "" }] := by
  exact ⟨by decide, by rfl⟩

/-! ## Characterization of the aggregation loop (for the amended C1/C4/C8) -/

/-- A message skipped by the `TypeError → continue` path: its effective
date is truthy while the thread's stored last-response time is `None`. -/
def skippedB (pd : String → Option Int) (d0 : Option Int) (l0none : Bool) (e : PEmail) : Bool :=
  pyTruthyInt (effDate pd d0 e) && l0none

/-- A message that contributes to the thread's response counter: index > 0
(every loop message below), resolved name different from the initiator's,
and not skipped. -/
def contribB (pd : String → Option Int) (A : String) (d0 : Option Int) (l0none : Bool)
    (e : PEmail) : Bool :=
  !(resolvedName e.fromName == A) && !(skippedB pd d0 l0none e)

theorem addResp_contains_of (l : List String) (q x : String)
    (h : l.contains q = true) : (addResp l x).contains q = true := by
  unfold addResp
  split
  · exact h
  · simp at h ⊢
    exact Or.inl h

theorem addResp_contains_self (l : List String) (x : String) :
    (addResp l x).contains x = true := by
  unfold addResp
  split
  · assumption
  · simp

theorem attribStep_responders_mono (tid A : String) (idx : Nat) (e : PEmail)
    (s : AggState) (a q : String) (h : (s.responders a).contains q = true) :
    ((attribStep tid A idx e s).responders a).contains q = true := by
  simp only [attribStep]
  split
  · simp only []
    split
    · exact addResp_contains_of _ _ _ h
    · exact h
  · exact h

theorem updEmail_responders_mono (pd : String → Option Int) (tid A : String)
    (d0 : Option Int) (st : AggState) (idx : Nat) (e : PEmail) (a q : String)
    (h : (st.responders a).contains q = true) :
    ((updEmail pd tid A d0 st idx e).responders a).contains q = true := by
  simp only [updEmail]
  split
  · split
    · exact h
    · exact attribStep_responders_mono _ _ _ _ _ _ _ h
  · exact attribStep_responders_mono _ _ _ _ _ _ _ h

theorem foldIdx_responders_mono (pd : String → Option Int) (tid A : String)
    (d0 : Option Int) :
    ∀ (es : List PEmail) (st : AggState) (idx : Nat) (a q : String),
    (st.responders a).contains q = true →
    (((foldIdx (updEmail pd tid A d0) st idx es).responders a).contains q) = true := by
  intro es
  induction es with
  | nil => intro st idx a q h; exact h
  | cons e es ih =>
    intro st idx a q h
    exact ih _ _ _ _ (updEmail_responders_mono pd tid A d0 st idx e a q h)

theorem attribStep_times (tid A : String) (idx : Nat) (e : PEmail) (s : AggState) :
    (attribStep tid A idx e s).times = s.times := by
  simp only [attribStep]
  split <;> rfl

theorem attribStep_initiators (tid A : String) (idx : Nat) (e : PEmail) (s : AggState) :
    (attribStep tid A idx e s).initiators = s.initiators := by
  simp only [attribStep]
  split <;> rfl

theorem attribStep_rows (tid A : String) (idx : Nat) (e : PEmail) (s : AggState) :
    (attribStep tid A idx e s).rows = s.rows ++ [rowOf tid e] := by
  simp only [attribStep]
  split <;> rfl

theorem attribStep_respCounts_contrib (tid A : String) (idx : Nat) (e : PEmail)
    (s : AggState) (hidx : 0 < idx) (hne : resolvedName e.fromName ≠ A) :
    (attribStep tid A idx e s).respCounts
      = fun k => if k = tid then s.respCounts k + 1 else s.respCounts k := by
  have hc : (decide (idx > 0) && decide (resolvedName e.fromName ≠ A)) = true := by
    simp [hidx, hne]
  simp only [attribStep, hc, if_true]

theorem attribStep_respCounts_same (tid A : String) (idx : Nat) (e : PEmail)
    (s : AggState) (heq : resolvedName e.fromName = A) :
    (attribStep tid A idx e s).respCounts = s.respCounts := by
  have hc : (decide (idx > 0) && decide (resolvedName e.fromName ≠ A)) = false := by
    simp [heq]
  simp only [attribStep, hc, Bool.false_eq_true, if_false]

theorem attribStep_respCounts_idx0 (tid A : String) (e : PEmail) (s : AggState) :
    (attribStep tid A 0 e s).respCounts = s.respCounts := by
  simp only [attribStep]
  norm_num

theorem attribStep_responders_contrib (tid A : String) (idx : Nat) (e : PEmail)
    (s : AggState) (hidx : 0 < idx) (hne : resolvedName e.fromName ≠ A) :
    (attribStep tid A idx e s).responders
      = fun k => if k = resolvedName e.fromName then addResp (s.responders k) tid
                 else s.responders k := by
  have hc : (decide (idx > 0) && decide (resolvedName e.fromName ≠ A)) = true := by
    simp [hidx, hne]
  simp only [attribStep, hc, if_true]

theorem attribStep_responders_same (tid A : String) (idx : Nat) (e : PEmail)
    (s : AggState) (heq : resolvedName e.fromName = A) :
    (attribStep tid A idx e s).responders = s.responders := by
  have hc : (decide (idx > 0) && decide (resolvedName e.fromName ≠ A)) = false := by
    simp [heq]
  simp only [attribStep, hc, Bool.false_eq_true, if_false]

theorem updEmail_skip (pd : String → Option Int) (tid A : String) (d0 : Option Int)
    (st : AggState) (idx : Nat) (e : PEmail) (s : Option Int)
    (h1 : pyTruthyInt (effDate pd d0 e) = true)
    (ht : st.times tid = some (s, none)) :
    updEmail pd tid A d0 st idx e = st := by
  simp only [updEmail, ht, h1, Option.getD_some, if_true]

theorem updEmail_live (pd : String → Option Int) (tid A : String) (d0 : Option Int)
    (st : AggState) (idx : Nat) (e : PEmail) (s : Option Int) (lv : Int)
    (h1 : pyTruthyInt (effDate pd d0 e) = true)
    (ht : st.times tid = some (s, some lv)) :
    updEmail pd tid A d0 st idx e
      = attribStep tid A idx e
          { st with times := fun k =>
              if k = tid then some (s, some (max lv ((effDate pd d0 e).getD 0)))
              else st.times k } := by
  simp only [updEmail, ht, h1, Option.getD_some, if_true]

theorem updEmail_nodate (pd : String → Option Int) (tid A : String) (d0 : Option Int)
    (st : AggState) (idx : Nat) (e : PEmail)
    (h1 : pyTruthyInt (effDate pd d0 e) = false) :
    updEmail pd tid A d0 st idx e = attribStep tid A idx e st := by
  simp only [updEmail, h1, Bool.false_eq_true, if_false]

/-- Full characterization of the aggregation loop over the messages at
index ≥ 1: response-count delta, responder sets, buffered rows, and the
evolution of the thread's time record.  `b` is the (loop-invariant)
noneness of the thread's stored last-response time. -/
theorem loopSpec (pd : String → Option Int) (tid A : String) (d0 : Option Int) :
    ∀ (es : List PEmail) (st : AggState) (idx : Nat) (s l : Option Int) (b : Bool),
    0 < idx →
    st.times tid = some (s, l) →
    l.isNone = b →
    ((foldIdx (updEmail pd tid A d0) st idx es).respCounts tid
        = st.respCounts tid + (es.filter (contribB pd A d0 b)).length)
    ∧ (∀ e ∈ es, contribB pd A d0 b e = true →
        (((foldIdx (updEmail pd tid A d0) st idx es).responders
            (resolvedName e.fromName)).contains tid) = true)
    ∧ ((foldIdx (updEmail pd tid A d0) st idx es).rows
        = st.rows ++ (es.filter (fun e => !(skippedB pd d0 b e))).map (rowOf tid))
    ∧ (∃ l2 : Option Int,
        (foldIdx (updEmail pd tid A d0) st idx es).times tid = some (s, l2)
        ∧ l2.isNone = b
        ∧ ∀ lv : Int, l = some lv → ∃ lv2 : Int, l2 = some lv2 ∧ lv ≤ lv2)
    ∧ (∀ q, q ≠ tid → (foldIdx (updEmail pd tid A d0) st idx es).times q = st.times q) := by
  intro es
  induction es with
  | nil =>
    intro st idx s l b hidx ht hb
    refine ⟨by simp [foldIdx], by simp [foldIdx], by simp [foldIdx],
      ⟨l, by simpa [foldIdx] using ht, hb, fun lv hl => ⟨lv, hl, le_refl lv⟩⟩,
      fun q hq => by simp [foldIdx]⟩
  | cons e es ih =>
    intro st idx s l b hidx ht hb
    simp only [foldIdx]
    by_cases h1 : pyTruthyInt (effDate pd d0 e) = true
    · cases l with
      | none =>
        simp only [Option.isNone_none] at hb
        subst hb
        rw [updEmail_skip pd tid A d0 st idx e s h1 ht]
        obtain ⟨ihc, ihr, ihrows, ⟨l2, ihl2, ihn, ihg⟩, ihq⟩ :=
          ih st (idx + 1) s none true (Nat.succ_pos idx) ht rfl
        refine ⟨?_, ?_, ?_, ⟨l2, ihl2, ihn, ihg⟩, ihq⟩
        · rw [List.filter_cons_of_neg (by simp [contribB, skippedB, h1])]
          exact ihc
        · intro e2 he2 hc2
          rcases List.mem_cons.mp he2 with he2 | he2
          · subst he2
            simp [contribB, skippedB, h1] at hc2
          · exact ihr e2 he2 hc2
        · rw [List.filter_cons_of_neg (by simp [skippedB, h1])]
          exact ihrows
      | some lv =>
        simp only [Option.isNone_some] at hb
        subst hb
        rw [updEmail_live pd tid A d0 st idx e s lv h1 ht]
        set d : Int := (effDate pd d0 e).getD 0 with hd
        set stT : AggState :=
          { st with times := fun k =>
              if k = tid then some (s, some (max lv d)) else st.times k } with hstT
        have htT : (attribStep tid A idx e stT).times tid = some (s, some (max lv d)) := by
          rw [attribStep_times]
          simp [hstT]
        have hskip : skippedB pd d0 false e = false := by
          simp [skippedB]
        obtain ⟨ihc, ihr, ihrows, ⟨l2, ihl2, ihn, ihg⟩, ihq⟩ :=
          ih (attribStep tid A idx e stT) (idx + 1) s (some (max lv d)) false
            (Nat.succ_pos idx) htT rfl
        have hrowsT : (attribStep tid A idx e stT).rows = st.rows ++ [rowOf tid e] := by
          rw [attribStep_rows]
        have htimes_other : ∀ q, q ≠ tid →
            (attribStep tid A idx e stT).times q = st.times q := by
          intro q hq
          rw [attribStep_times]
          simp [hstT, hq]
        have hgrow : ∀ lv0 : Int, (some lv : Option Int) = some lv0 →
            ∃ lv2 : Int, l2 = some lv2 ∧ lv0 ≤ lv2 := by
          intro lv0 hlv0
          have hlv : lv = lv0 := by injection hlv0
          obtain ⟨lv2, hl2, hle⟩ := ihg (max lv d) rfl
          refine ⟨lv2, hl2, ?_⟩
          rw [← hlv]
          exact le_trans (le_max_left lv d) hle
        by_cases hname : resolvedName e.fromName = A
        · have hcon : contribB pd A d0 false e = false := by
            simp [contribB, hname]
          have hcT : (attribStep tid A idx e stT).respCounts = st.respCounts := by
            rw [attribStep_respCounts_same tid A idx e stT hname]
          refine ⟨?_, ?_, ?_, ⟨l2, ihl2, ihn, hgrow⟩, ?_⟩
          · rw [List.filter_cons_of_neg (by simp [hcon])]
            rw [ihc, hcT]
          · intro e2 he2 hc2
            rcases List.mem_cons.mp he2 with he2 | he2
            · subst he2
              rw [hc2] at hcon
              exact absurd hcon (by simp)
            · exact ihr e2 he2 hc2
          · rw [List.filter_cons_of_pos (by simp [hskip])]
            rw [ihrows, hrowsT]
            simp
          · intro q hq
            rw [ihq q hq, htimes_other q hq]
        · have hcon : contribB pd A d0 false e = true := by
            simp [contribB, skippedB, hname]
          have hcT : (attribStep tid A idx e stT).respCounts tid
              = st.respCounts tid + 1 := by
            rw [attribStep_respCounts_contrib tid A idx e stT hidx hname]
            simp [hstT]
          refine ⟨?_, ?_, ?_, ⟨l2, ihl2, ihn, hgrow⟩, ?_⟩
          · rw [List.filter_cons_of_pos (by simp [hcon])]
            simp only [List.length_cons]
            rw [ihc, hcT]
            omega
          · intro e2 he2 hc2
            rcases List.mem_cons.mp he2 with he2 | he2
            · subst he2
              apply foldIdx_responders_mono
              rw [attribStep_responders_contrib tid A idx e2 stT hidx hname]
              simp only [if_pos rfl]
              exact addResp_contains_self _ _
            · exact ihr e2 he2 hc2
          · rw [List.filter_cons_of_pos (by simp [hskip])]
            rw [ihrows, hrowsT]
            simp
          · intro q hq
            rw [ihq q hq, htimes_other q hq]
    · have h1f : pyTruthyInt (effDate pd d0 e) = false := by
        simpa using h1
      rw [updEmail_nodate pd tid A d0 st idx e h1f]
      have hskip : skippedB pd d0 b e = false := by
        simp [skippedB, h1f]
      have htT : (attribStep tid A idx e st).times tid = some (s, l) := by
        rw [attribStep_times]
        exact ht
      obtain ⟨ihc, ihr, ihrows, ⟨l2, ihl2, ihn, ihg⟩, ihq⟩ :=
        ih (attribStep tid A idx e st) (idx + 1) s l b (Nat.succ_pos idx) htT hb
      have hrowsT : (attribStep tid A idx e st).rows = st.rows ++ [rowOf tid e] := by
        rw [attribStep_rows]
      have htimes_other : ∀ q, q ≠ tid →
          (attribStep tid A idx e st).times q = st.times q := by
        intro q hq
        rw [attribStep_times]
      by_cases hname : resolvedName e.fromName = A
      · have hcon : contribB pd A d0 b e = false := by
          simp [contribB, hname]
        have hcT : (attribStep tid A idx e st).respCounts = st.respCounts := by
          rw [attribStep_respCounts_same tid A idx e st hname]
        refine ⟨?_, ?_, ?_, ⟨l2, ihl2, ihn, ihg⟩, ?_⟩
        · rw [List.filter_cons_of_neg (by simp [hcon])]
          rw [ihc, hcT]
        · intro e2 he2 hc2
          rcases List.mem_cons.mp he2 with he2 | he2
          · subst he2
            rw [hc2] at hcon
            exact absurd hcon (by simp)
          · exact ihr e2 he2 hc2
        · rw [List.filter_cons_of_pos (by simp [hskip])]
          rw [ihrows, hrowsT]
          simp
        · intro q hq
          rw [ihq q hq, htimes_other q hq]
      · have hcon : contribB pd A d0 b e = true := by
          simp [contribB, skippedB, h1f, hname]
        have hcT : (attribStep tid A idx e st).respCounts tid
            = st.respCounts tid + 1 := by
          rw [attribStep_respCounts_contrib tid A idx e st hidx hname]
          simp
        refine ⟨?_, ?_, ?_, ⟨l2, ihl2, ihn, ihg⟩, ?_⟩
        · rw [List.filter_cons_of_pos (by simp [hcon])]
          simp only [List.length_cons]
          rw [ihc, hcT]
          omega
        · intro e2 he2 hc2
          rcases List.mem_cons.mp he2 with he2 | he2
          · subst he2
            apply foldIdx_responders_mono
            rw [attribStep_responders_contrib tid A idx e2 st hidx hname]
            simp only [if_pos rfl]
            exact addResp_contains_self _ _
          · exact ihr e2 he2 hc2
        · rw [List.filter_cons_of_pos (by simp [hskip])]
          rw [ihrows, hrowsT]
          simp
        · intro q hq
          rw [ihq q hq, htimes_other q hq]

theorem attribStep_responders_idx0 (tid A : String) (e : PEmail) (s : AggState) :
    (attribStep tid A 0 e s).responders = s.responders := by
  simp only [attribStep]
  norm_num

/-- The initiator's effective date is the thread start date itself. -/
theorem effDate_self (pd : String → Option Int) (e0 : PEmail) :
    effDate pd (pd e0.date) e0 = pd e0.date := by
  unfold effDate
  split <;> rfl

/-- The thread-time pair stored for the thread right before the message
loop: `setdefault` followed by the truthy-guarded start assignment. -/
def callStart (st : AggState) (tid : String) (d0 : Option Int) : Option Int × Option Int :=
  let t0 := (st.times tid).getD (d0, d0)
  (if pyTruthyInt d0 then d0 else t0.1, t0.2)

/-- The aggregator state right before the message loop. -/
def st3Of (pd : String → Option Int) (st : AggState) (e0 : PEmail) : AggState :=
  { st with
    initiators := fun k =>
      if k = resolvedName e0.fromName then st.initiators k + 1 else st.initiators k,
    times := fun k =>
      if k = pyStrip e0.subject then some (callStart st (pyStrip e0.subject) (pd e0.date))
      else st.times k }

/-- `update_patches_data` on a non-discarded file is the message loop run
from `st3Of`. -/
theorem update_patches_data_cons (pd : String → Option Int) (st : AggState)
    (e0 : PEmail) (es : List PEmail) (hid : pyStrip e0.subject ≠ "") :
    update_patches_data pd st (e0 :: es)
      = foldIdx (updEmail pd (pyStrip e0.subject) (resolvedName e0.fromName) (pd e0.date))
          (st3Of pd st e0) 0 (e0 :: es) := by
  obtain ⟨i, r, c, t, ro⟩ := st
  simp only [update_patches_data, if_neg hid]
  refine congrArg
    (fun z => foldIdx (updEmail pd (pyStrip e0.subject) (resolvedName e0.fromName)
      (pd e0.date)) z 0 (e0 :: es)) ?_
  by_cases hT : pyTruthyInt (pd e0.date) = true
  case pos =>
    simp only [hT, if_true, st3Of, callStart]
    simp only [AggState.mk.injEq, true_and, and_true]
    funext k
    by_cases hk : k = pyStrip e0.subject
    case pos => simp [hk]
    case neg => simp [hk]
  case neg =>
    simp only [hT, Bool.false_eq_true, if_false, st3Of, callStart]

/-- Characterization of one whole `update_patches_data` call on a
non-discarded file, relative to the incoming state. -/
theorem callSpec (pd : String → Option Int) (st : AggState) (e0 : PEmail)
    (es : List PEmail) (hid : pyStrip e0.subject ≠ "") :
    ((update_patches_data pd st (e0 :: es)).respCounts (pyStrip e0.subject)
        = st.respCounts (pyStrip e0.subject)
          + (es.filter (contribB pd (resolvedName e0.fromName) (pd e0.date)
              (callStart st (pyStrip e0.subject) (pd e0.date)).2.isNone)).length)
    ∧ (∀ e ∈ es, contribB pd (resolvedName e0.fromName) (pd e0.date)
          (callStart st (pyStrip e0.subject) (pd e0.date)).2.isNone e = true →
        (((update_patches_data pd st (e0 :: es)).responders
            (resolvedName e.fromName)).contains (pyStrip e0.subject)) = true)
    ∧ ((update_patches_data pd st (e0 :: es)).rows
        = st.rows ++ ((e0 :: es).filter
            (fun e => !(skippedB pd (pd e0.date)
              (callStart st (pyStrip e0.subject) (pd e0.date)).2.isNone e))).map
            (rowOf (pyStrip e0.subject)))
    ∧ (∃ l2 : Option Int,
        (update_patches_data pd st (e0 :: es)).times (pyStrip e0.subject)
          = some ((callStart st (pyStrip e0.subject) (pd e0.date)).1, l2)
        ∧ l2.isNone = (callStart st (pyStrip e0.subject) (pd e0.date)).2.isNone
        ∧ (∀ lv0 : Int, (callStart st (pyStrip e0.subject) (pd e0.date)).2 = some lv0 →
            ∃ lv2 : Int, l2 = some lv2 ∧ lv0 ≤ lv2
              ∧ (∀ dv : Int, pyTruthyInt (pd e0.date) = true → pd e0.date = some dv →
                  dv ≤ lv2)))
    ∧ (∀ q, q ≠ pyStrip e0.subject →
        (update_patches_data pd st (e0 :: es)).times q = st.times q) := by
  rw [update_patches_data_cons pd st e0 es hid]
  set tid := pyStrip e0.subject with htid
  set A := resolvedName e0.fromName with hA
  set d0 := pd e0.date with hd0
  set p := callStart st tid d0 with hp
  have h3t : (st3Of pd st e0).times tid = some (p.1, p.2) := by
    simp [st3Of, htid, hp, hd0]
  have h3q : ∀ q, q ≠ tid → (st3Of pd st e0).times q = st.times q := by
    intro q hq
    simp [st3Of, htid, hq]
  have heff : effDate pd d0 e0 = d0 := effDate_self pd e0
  simp only [foldIdx]
  by_cases hT : pyTruthyInt d0 = true
  · cases hp2 : p.2 with
    | none =>
      rw [hp2] at h3t
      have hstep : updEmail pd tid A d0 (st3Of pd st e0) 0 e0 = st3Of pd st e0 :=
        updEmail_skip pd tid A d0 (st3Of pd st e0) 0 e0 p.1 (by rw [heff]; exact hT) h3t
      rw [hstep]
      obtain ⟨ihc, ihr, ihrows, ⟨l2, ihl2, ihn, ihg⟩, ihq⟩ :=
        loopSpec pd tid A d0 es (st3Of pd st e0) 1 p.1 none true Nat.one_pos h3t rfl
      simp only [Option.isNone_none]
      refine ⟨ihc, ihr, ?_, ⟨l2, ihl2, ihn, ?_⟩, fun q hq => by rw [ihq q hq, h3q q hq]⟩
      · rw [List.filter_cons_of_neg (by simp [skippedB, heff, hT])]
        exact ihrows
      · intro lv0 hlv0
        simp at hlv0
    | some lv0 =>
      rw [hp2] at h3t
      have hstep := updEmail_live pd tid A d0 (st3Of pd st e0) 0 e0 p.1 lv0
        (by rw [heff]; exact hT) h3t
      rw [hstep]
      set dv : Int := (effDate pd d0 e0).getD 0 with hdv
      set stT : AggState :=
        { st3Of pd st e0 with times := fun k =>
            if k = tid then some (p.1, some (max lv0 dv)) else (st3Of pd st e0).times k }
        with hstT
      set st2 : AggState := attribStep tid A 0 e0 stT with hst2
      have h2t : st2.times tid = some (p.1, some (max lv0 dv)) := by
        rw [hst2, attribStep_times]
        simp [hstT]
      have h2c : st2.respCounts = st.respCounts := by
        rw [hst2, attribStep_respCounts_idx0]
        rfl
      have h2r : st2.responders = st.responders := by
        rw [hst2, attribStep_responders_idx0]
        rfl
      have h2rows : st2.rows = st.rows ++ [rowOf tid e0] := by
        rw [hst2, attribStep_rows]
        rfl
      have h2q : ∀ q, q ≠ tid → st2.times q = st.times q := by
        intro q hq
        rw [hst2, attribStep_times]
        have : stT.times q = (st3Of pd st e0).times q := by
          simp [hstT, hq]
        rw [this, h3q q hq]
      obtain ⟨ihc, ihr, ihrows, ⟨l2, ihl2, ihn, ihg⟩, ihq⟩ :=
        loopSpec pd tid A d0 es st2 1 p.1 (some (max lv0 dv)) false Nat.one_pos h2t rfl
      simp only [Option.isNone_some]
      refine ⟨by rw [ihc, h2c], ?_, ?_, ⟨l2, ihl2, ihn, ?_⟩,
        fun q hq => by rw [ihq q hq, h2q q hq]⟩
      · intro e2 he2 hc2
        exact ihr e2 he2 hc2
      · rw [List.filter_cons_of_pos (by simp [skippedB])]
        rw [ihrows, h2rows]
        simp
      · intro lv0x hlv0x
        have hlv : lv0 = lv0x := by injection hlv0x
        subst hlv
        obtain ⟨lv2, hl2, hle⟩ := ihg (max lv0 dv) rfl
        refine ⟨lv2, hl2, le_trans (le_max_left lv0 dv) hle, ?_⟩
        intro dvv _ hdvv
        have : dv = dvv := by rw [hdv, heff, hdvv]; rfl
        rw [← this]
        exact le_trans (le_max_right lv0 dv) hle
  · have hTf : pyTruthyInt (effDate pd d0 e0) = false := by
      rw [heff]
      simpa using hT
    have hstep := updEmail_nodate pd tid A d0 (st3Of pd st e0) 0 e0 hTf
    rw [hstep]
    set st2 : AggState := attribStep tid A 0 e0 (st3Of pd st e0) with hst2
    have h2t : st2.times tid = some (p.1, p.2) := by
      rw [hst2, attribStep_times]
      exact h3t
    have h2c : st2.respCounts = st.respCounts := by
      rw [hst2, attribStep_respCounts_idx0]
      rfl
    have h2r : st2.responders = st.responders := by
      rw [hst2, attribStep_responders_idx0]
      rfl
    have h2rows : st2.rows = st.rows ++ [rowOf tid e0] := by
      rw [hst2, attribStep_rows]
      rfl
    have h2q : ∀ q, q ≠ tid → st2.times q = st.times q := by
      intro q hq
      rw [hst2, attribStep_times]
      exact h3q q hq
    obtain ⟨ihc, ihr, ihrows, ⟨l2, ihl2, ihn, ihg⟩, ihq⟩ :=
      loopSpec pd tid A d0 es st2 1 p.1 p.2 (p.2).isNone Nat.one_pos h2t rfl
    refine ⟨by rw [ihc, h2c], ?_, ?_, ⟨l2, ihl2, ihn, ?_⟩,
      fun q hq => by rw [ihq q hq, h2q q hq]⟩
    · intro e2 he2 hc2
      exact ihr e2 he2 hc2
    · rw [List.filter_cons_of_pos (by simp [skippedB, hTf])]
      rw [ihrows, h2rows]
      simp
    · intro lv0 hlv0
      obtain ⟨lv2, hl2, hle⟩ := ihg lv0 hlv0
      refine ⟨lv2, hl2, hle, ?_⟩
      intro dvv hTd _
      exact absurd hTd (by simpa using hT)

theorem update_patches_data_nil (pd : String → Option Int) (st : AggState) :
    update_patches_data pd st [] = st := rfl

theorem update_patches_data_discard (pd : String → Option Int) (st : AggState)
    (e0 : PEmail) (es : List PEmail) (h : pyStrip e0.subject = "") :
    update_patches_data pd st (e0 :: es) = st := by
  simp [update_patches_data, h]

/-- C1 (amended): for a file whose aggregation is not discarded, the
thread's response counter grows by exactly the number of loop messages
(index > 0) whose resolved `From` name differs from the initiator's AND
that are not skipped by the invalid-date-comparison path (message date
truthy while the stored last-response time is `None`); each such
contributing author's responded-set receives the thread identity; and when
the initiator and all later messages share one resolved name the counter is
unchanged (in particular it remains 0 for a fresh thread). -/
theorem c1_responses_amended (pd : String → Option Int) (st : AggState)
    (e0 : PEmail) (es : List PEmail) (hid : pyStrip e0.subject ≠ "") :
    ((update_patches_data pd st (e0 :: es)).respCounts (pyStrip e0.subject)
        = st.respCounts (pyStrip e0.subject)
          + (es.filter (contribB pd (resolvedName e0.fromName) (pd e0.date)
              (callStart st (pyStrip e0.subject) (pd e0.date)).2.isNone)).length)
    ∧ (∀ e ∈ es, contribB pd (resolvedName e0.fromName) (pd e0.date)
          (callStart st (pyStrip e0.subject) (pd e0.date)).2.isNone e = true →
        (((update_patches_data pd st (e0 :: es)).responders
            (resolvedName e.fromName)).contains (pyStrip e0.subject)) = true)
    ∧ ((∀ e ∈ es, resolvedName e.fromName = resolvedName e0.fromName) →
        (update_patches_data pd st (e0 :: es)).respCounts (pyStrip e0.subject)
          = st.respCounts (pyStrip e0.subject)) := by
  obtain ⟨h1, h2, _, _, _⟩ := callSpec pd st e0 es hid
  refine ⟨h1, h2, ?_⟩
  intro hall
  rw [h1]
  have hnil : es.filter (contribB pd (resolvedName e0.fromName) (pd e0.date)
      (callStart st (pyStrip e0.subject) (pd e0.date)).2.isNone) = [] := by
    apply List.filter_eq_nil_iff.mpr
    intro e he
    simp [contribB, hall e he]
  rw [hnil]
  rfl

def c1wpd : String → Option Int := fun s =>
  if s = "d1" then some 100 else if s = "d2" then some 200 else none

def c1we0 : PEmail :=
  { fromName := some "Alice", fromEmail := some "a@x.com", toName := "",
    date := "d1", subject := "W1", reviewedBy := [] }

def c1we1 : PEmail :=
  { fromName := some "Bob", fromEmail := some "b@y.com", toName := "",
    date := "d2", subject := "Re: W1", reviewedBy := [] }

theorem c1_responses_amended_witness :
    (update_patches_data c1wpd initAgg [c1we0, c1we1]).respCounts "W1" = 1
    ∧ ((update_patches_data c1wpd initAgg [c1we0, c1we1]).responders "Bob").contains "W1"
        = true := by
  have h := c1_responses_amended c1wpd initAgg c1we0 [c1we1] (by decide)
  constructor
  · exact h.1.trans (by rfl)
  · exact h.2.1 c1we1 (List.mem_singleton.mpr rfl) (by rfl)

/-- Thread-times invariant, part 1 of C4 (amended): whenever the stored
last-response time is set, the start time is set and not greater. -/
def timesInv1 (st : AggState) : Prop :=
  ∀ tid (s : Option Int) (lv : Int), st.times tid = some (s, some lv) →
    ∃ sv : Int, s = some sv ∧ sv ≤ lv

theorem updCall_timesInv1 (pd : String → Option Int) (st : AggState)
    (emails : List PEmail) (h : timesInv1 st) :
    timesInv1 (update_patches_data pd st emails) := by
  cases emails with
  | nil => rw [update_patches_data_nil]; exact h
  | cons e0 es =>
    by_cases hid : pyStrip e0.subject = ""
    · rw [update_patches_data_discard pd st e0 es hid]; exact h
    · intro tid s lv hfin
      by_cases htid : tid = pyStrip e0.subject
      · rw [htid] at hfin
        obtain ⟨_, _, _, ⟨l2, hl2, hln, hg⟩, _⟩ := callSpec pd st e0 es hid
        rw [hfin] at hl2
        have hpair : (s, some lv)
            = ((callStart st (pyStrip e0.subject) (pd e0.date)).1, l2) := by
          injection hl2
        have hs : s = (callStart st (pyStrip e0.subject) (pd e0.date)).1 :=
          congrArg Prod.fst hpair
        have hl : some lv = l2 := congrArg Prod.snd hpair
        have hp2 : ∃ lv0 : Int,
            (callStart st (pyStrip e0.subject) (pd e0.date)).2 = some lv0 := by
          rw [← hl] at hln
          simp only [Option.isNone_some] at hln
          cases hcs : (callStart st (pyStrip e0.subject) (pd e0.date)).2 with
          | none => rw [hcs] at hln; simp at hln
          | some lv0 => exact ⟨lv0, rfl⟩
        obtain ⟨lv0, hlv0⟩ := hp2
        obtain ⟨lv2, hlv2, hle, hdvle⟩ := hg lv0 hlv0
        have hlv2lv : lv2 = lv := by
          rw [← hl] at hlv2
          injection hlv2 with hx
          omega
        subst hlv2lv
        rw [hs]
        by_cases hT : pyTruthyInt (pd e0.date) = true
        · have hd : ∃ dv : Int, pd e0.date = some dv := by
            cases hpd : pd e0.date with
            | none => rw [hpd] at hT; simp [pyTruthyInt] at hT
            | some dv => exact ⟨dv, rfl⟩
          obtain ⟨dv, hdv⟩ := hd
          refine ⟨dv, ?_, hdvle dv hT hdv⟩
          rw [hdv] at hT
          simp [callStart, hT, hdv]
        · have hTf : pyTruthyInt (pd e0.date) = false := by simpa using hT
          cases hst : st.times (pyStrip e0.subject) with
          | none =>
            have hp1 : (callStart st (pyStrip e0.subject) (pd e0.date)).1
                = pd e0.date := by
              simp [callStart, hst, hTf]
            have hp2d : (callStart st (pyStrip e0.subject) (pd e0.date)).2
                = pd e0.date := by
              simp [callStart, hst]
            rw [hp2d] at hlv0
            refine ⟨lv0, ?_, hle⟩
            rw [hp1, hlv0]
          | some t =>
            have hp1 : (callStart st (pyStrip e0.subject) (pd e0.date)).1 = t.1 := by
              simp [callStart, hst, hTf]
            have hp2d : (callStart st (pyStrip e0.subject) (pd e0.date)).2 = t.2 := by
              simp [callStart, hst]
            rw [hp2d] at hlv0
            obtain ⟨sv, hsv, hsvle⟩ := h (pyStrip e0.subject) t.1 lv0 (by rw [hst, ← hlv0])
            refine ⟨sv, ?_, le_trans hsvle hle⟩
            rw [hp1, hsv]
      · obtain ⟨_, _, _, _, hq⟩ := callSpec pd st e0 es hid
        rw [hq tid htid] at hfin
        exact h tid s lv hfin

theorem foldl_timesInv1 (pd : String → Option Int) :
    ∀ (files : List (List PEmail)) (st : AggState), timesInv1 st →
    timesInv1 (files.foldl (update_patches_data pd) st) := by
  intro files
  induction files with
  | nil => intro st h; exact h
  | cons f fs ih =>
    intro st h
    exact ih _ (updCall_timesInv1 pd st f h)

theorem updCall_timesInv2 (pd : String → Option Int) (st : AggState) (tid : String)
    (f : List PEmail)
    (h : st.times tid = none ∨ st.times tid = some (none, none))
    (hf : ∀ e0 es, f = e0 :: es → pyStrip e0.subject = tid → ∀ e ∈ f, pd e.date = none) :
    (update_patches_data pd st f).times tid = none
    ∨ (update_patches_data pd st f).times tid = some (none, none) := by
  cases f with
  | nil => rw [update_patches_data_nil]; exact h
  | cons e0 es =>
    by_cases hid : pyStrip e0.subject = ""
    · rw [update_patches_data_discard pd st e0 es hid]; exact h
    · by_cases htid : pyStrip e0.subject = tid
      · have hd0 : pd e0.date = none :=
          hf e0 es rfl htid e0 (List.mem_cons_self e0 es)
        obtain ⟨_, _, _, ⟨l2, hl2, hln, _⟩, _⟩ := callSpec pd st e0 es hid
        rw [htid] at hl2 hln
        have hpp : callStart st tid (pd e0.date) = (none, none) := by
          rcases h with h | h <;>
            simp [callStart, hd0, h, pyTruthyInt]
        right
        rw [hl2, hpp]
        have hl2n : l2 = none := by
          rw [hpp] at hln
          simp only [Option.isNone_none] at hln
          cases hc : l2 with
          | none => rfl
          | some x => rw [hc] at hln; simp at hln
        rw [hl2n]
      · obtain ⟨_, _, _, _, hq⟩ := callSpec pd st e0 es hid
        rw [hq tid (fun hx => htid hx.symm)]
        exact h

/-- C4 (amended): over any sequence of files, (1) whenever a thread
record's last-response time is set, its start time is set and
`startTime ≤ lastResponseTime`; and (2) for a thread none of whose files'
messages yield a parseable date, the record is absent or `[None, None]` —
both components unset, never zero.  (The original claim's "once any message
yielded a parseable date" premise is weakened to "whenever lastResponseTime
is set", which is what the `TypeError → continue` handler actually
guarantees.) -/
theorem c4_times_amended (pd : String → Option Int) (files : List (List PEmail)) :
    (∀ tid (s : Option Int) (lv : Int),
        (walkFiles pd files).times tid = some (s, some lv) →
        ∃ sv : Int, s = some sv ∧ sv ≤ lv)
    ∧ (∀ tid : String,
        (∀ f ∈ files, ∀ e0 es, f = e0 :: es → pyStrip e0.subject = tid →
          ∀ e ∈ f, pd e.date = none) →
        (walkFiles pd files).times tid = none
        ∨ (walkFiles pd files).times tid = some (none, none)) := by
  constructor
  · have h0 : timesInv1 initAgg := by
      intro tid s lv h
      simp [initAgg] at h
    exact foldl_timesInv1 pd files initAgg h0
  · intro tid hfs
    have hgen : ∀ (fs : List (List PEmail)) (st : AggState),
        (st.times tid = none ∨ st.times tid = some (none, none)) →
        (∀ f ∈ fs, ∀ e0 es, f = e0 :: es → pyStrip e0.subject = tid →
          ∀ e ∈ f, pd e.date = none) →
        (fs.foldl (update_patches_data pd) st).times tid = none
        ∨ (fs.foldl (update_patches_data pd) st).times tid = some (none, none) := by
      intro fs
      induction fs with
      | nil => intro st h _; exact h
      | cons f fs2 ih =>
        intro st h hall
        exact ih _ (updCall_timesInv2 pd st tid f h (hall f (List.mem_cons_self f fs2)))
          (fun g hg => hall g (List.mem_cons_of_mem f hg))
    exact hgen files initAgg (Or.inl rfl) hfs

def c4wpd : String → Option Int := fun s => if s = "w4" then some 7 else none

def c4we0 : PEmail :=
  { fromName := some "Ann", fromEmail := some "ann@x.com", toName := "",
    date := "w4", subject := "T4W", reviewedBy := [] }

theorem c4_times_amended_witness :
    (∃ sv : Int, (some (7 : Int)) = some sv ∧ sv ≤ 7)
    ∧ ((walkFiles (fun _ => none) [[c4we0]]).times "T4W" = none
        ∨ (walkFiles (fun _ => none) [[c4we0]]).times "T4W" = some (none, none)) := by
  constructor
  · exact (c4_times_amended c4wpd [[c4we0]]).1 "T4W" (some 7) 7 (by rfl)
  · exact (c4_times_amended (fun _ => none) [[c4we0]]).2 "T4W"
      (by
        intro f hf e0 es hfe hstrip e he
        rfl)

/-- C8 (amended): for a file whose aggregation is not discarded, the export
buffer receives exactly one `TabularRow` per message EXCEPT the messages
skipped by the invalid-date-comparison path; each buffered row carries the
thread identity as `Subject`, the raw `Date` header string, and the
comma/space-joined reviewer names (see `rowOf`). -/
theorem c8_rows_amended (pd : String → Option Int) (st : AggState)
    (e0 : PEmail) (es : List PEmail) (hid : pyStrip e0.subject ≠ "") :
    (update_patches_data pd st (e0 :: es)).rows
      = st.rows ++ ((e0 :: es).filter
          (fun e => !(skippedB pd (pd e0.date)
            (callStart st (pyStrip e0.subject) (pd e0.date)).2.isNone e))).map
          (rowOf (pyStrip e0.subject)) := by
  exact (callSpec pd st e0 es hid).2.2.1

def c8wpd : String → Option Int := fun s => if s = "dw" then some 50 else none

def c8we0 : PEmail :=
  { fromName := some "Cara", fromEmail := some "c@x.com", toName := "lkml",
    date := "dw", subject := "T8W", reviewedBy := ["Eve", "Finn"] }

theorem c8_rows_amended_witness :
    (update_patches_data c8wpd initAgg [c8we0]).rows
      = [{ rowFrom := "Cara", rowTo := "lkml", rowDate := "dw",
           rowSubject := "T8W", rowReviewedBy := "Eve, Finn" }] := by
  have h := c8_rows_amended c8wpd initAgg c8we0 [] (by decide)
  rw [h]
  rfl

/-! ## C7 counterexample -/

/-- C7 fails on the code: an mbox text of two bare boundary-marker lines
has N = 2 and no sender matching the filtered list, yet the splitter
produces 0 messages — flushing the first (From-less) message at the second
boundary raises `TypeError` (`skip_item in None`), the handler returns the
partial list, and nothing was parsed. -/
theorem c7_counterexample :
    ((["From mboxrd@z a", "From mboxrd@z b"].filter isBoundary).length = 2)
    ∧ (∀ l ∈ ["From mboxrd@z a", "From mboxrd@z b"], ∀ sub ∈ skipNames,
        strContainsSub l sub = false)
    ∧ (parse_emails_from_mbx ["From mboxrd@z a", "From mboxrd@z b"]).length = 0 := by
  refine ⟨by decide, by decide, by rfl⟩

/-! ## String-stripping lemmas for the amended C7 -/

theorem dropWhile_append_keep (p : Char → Bool) (a b : List Char) (hb : b ≠ [])
    (hhead : p b.headI = false) :
    List.dropWhile p (a ++ b) = List.dropWhile p a ++ b := by
  induction a with
  | nil =>
    cases b with
    | nil => exact absurd rfl hb
    | cons c cs =>
      simp only [List.headI] at hhead
      simp [List.dropWhile_cons, hhead]
  | cons x xs ih =>
    simp only [List.cons_append, List.dropWhile_cons]
    split
    · exact ih
    · rfl

theorem isPrefixOf_ex (p l : List Char) (h : p.isPrefixOf l = true) :
    ∃ t, l = p ++ t := by
  obtain ⟨t, ht⟩ := List.isPrefixOf_iff_prefix.mp h
  exact ⟨t, ht.symm⟩

theorem pyStrip_toList (s : String) :
    (pyStrip s).toList
      = ((s.toList.dropWhile pyIsSpace).reverse.dropWhile pyIsSpace).reverse := by
  rfl

/-- Stripping preserves a prefix whose first and last characters are not
whitespace. -/
theorem pyStrip_startsWith (s p : String) (hne : p.toList ≠ [])
    (hh : pyIsSpace p.toList.headI = false)
    (hl : pyIsSpace p.toList.reverse.headI = false)
    (h : pyStartsWith s p = true) : pyStartsWith (pyStrip s) p = true := by
  unfold pyStartsWith at h ⊢
  obtain ⟨t, ht⟩ := isPrefixOf_ex _ _ h
  have h1 : s.toList.dropWhile pyIsSpace = s.toList := by
    rw [ht]
    cases hp : p.toList with
    | nil => exact absurd hp hne
    | cons c cs =>
      rw [hp] at hh
      simp only [List.headI] at hh
      simp [List.dropWhile_cons, hh]
  rw [pyStrip_toList, h1, ht, List.reverse_append]
  rw [dropWhile_append_keep pyIsSpace t.reverse p.toList.reverse
    (by simpa using hne) hl]
  rw [List.reverse_append, List.reverse_reverse]
  exact isPrefixOf_append_self p.toList _

/-- A line whose strip is nonempty under a non-whitespace-headed prefix. -/
theorem pyStrip_ne_empty (s p : String) (hne : p.toList ≠ [])
    (hh : pyIsSpace p.toList.headI = false)
    (hl : pyIsSpace p.toList.reverse.headI = false)
    (h : pyStartsWith s p = true) : pyStrip s ≠ "" := by
  have h2 := pyStrip_startsWith s p hne hh hl h
  unfold pyStartsWith at h2
  obtain ⟨t, ht⟩ := isPrefixOf_ex _ _ h2
  intro hcon
  rw [hcon] at ht
  cases hp : p.toList with
  | nil => exact absurd hp hne
  | cons c cs =>
    rw [hp] at ht
    simp at ht

/-- Two prefixes of one string agree on their heads. -/
theorem startsWith_head (s p q : String) (hp : pyStartsWith s p = true)
    (hq : pyStartsWith s q = true) (hpne : p.toList ≠ []) (hqne : q.toList ≠ []) :
    p.toList.headI = q.toList.headI := by
  unfold pyStartsWith at hp hq
  obtain ⟨t1, ht1⟩ := isPrefixOf_ex _ _ hp
  obtain ⟨t2, ht2⟩ := isPrefixOf_ex _ _ hq
  cases hpl : p.toList with
  | nil => exact absurd hpl hpne
  | cons c cs =>
    cases hql : q.toList with
    | nil => exact absurd hql hqne
    | cons d ds =>
      rw [hpl] at ht1
      rw [hql] at ht2
      rw [ht1] at ht2
      simp only [List.cons_append] at ht2
      injection ht2

/-- A blank-stripping line starts with no non-whitespace-headed prefix. -/
theorem blank_not_startsWith (s p : String) (hne : p.toList ≠ [])
    (hh : pyIsSpace p.toList.headI = false)
    (hl : pyIsSpace p.toList.reverse.headI = false)
    (hblank : pyStrip s = "") : pyStartsWith s p = false := by
  cases hx : pyStartsWith s p
  · rfl
  · exact absurd hblank (pyStrip_ne_empty s p hne hh hl hx)

/-- A `From:`-matching line always extracts a (possibly empty) name. -/
theorem extractField_name_isSome (line field : String)
    (h : pyStartsWith (pyStrip line) (field ++ ":") = true) :
    ∃ n : String, (extractField line field).1 = some n := by
  unfold extractField
  simp only [h, if_true]
  split
  next n e heq => exact ⟨n, rfl⟩
  next heq => exact ⟨(pyStrip ((pyStrip line).drop (field.length + 1))), rfl⟩

theorem procFromTo_current (line : String) (st : ParserState) (ce : PEmail)
    (h : st.current = some ce) :
    ∃ ce2 : PEmail, (procFromTo line st).current = some ce2
      ∧ (procFromTo line st).emails = st.emails
      ∧ (procFromTo line st).mode = st.mode
      ∧ ce2.fromName = (if pyStartsWith line "From:" && !(pyTruthyStr ce.fromName)
          then (extractField line "From").1 else ce.fromName) := by
  simp only [procFromTo, h]
  split
  next hguard =>
    split
    next nv hnv =>
      split
      next hne =>
        split
        next ev hev => exact ⟨_, rfl, rfl, rfl, rfl⟩
        next hev => exact ⟨_, rfl, rfl, rfl, rfl⟩
      next hne => exact ⟨_, rfl, rfl, rfl, rfl⟩
    next hnv => exact ⟨_, rfl, rfl, rfl, rfl⟩
  next hguard =>
    split
    next hto =>
      split
      next nv hnv =>
        split
        next hne =>
          split
          next ev hev => exact ⟨_, rfl, rfl, rfl, rfl⟩
          next hev => exact ⟨_, rfl, rfl, rfl, rfl⟩
        next hne => exact ⟨ce, h, rfl, rfl, rfl⟩
      next hnv => exact ⟨ce, h, rfl, rfl, rfl⟩
    next hto => exact ⟨ce, h, rfl, rfl, rfl⟩

theorem procDateRev_current (line : String) (st : ParserState) (ce : PEmail)
    (h : st.current = some ce) :
    ∃ ce2 : PEmail, (procDateRev line st).current = some ce2
      ∧ (procDateRev line st).emails = st.emails
      ∧ (procDateRev line st).mode = st.mode
      ∧ ce2.fromName = ce.fromName := by
  simp only [procDateRev, h]
  split
  next hd => exact ⟨_, rfl, rfl, rfl, rfl⟩
  next hd =>
    split
    next hr =>
      split
      next nv hnv =>
        split
        next hne =>
          split
          next ev hev => exact ⟨_, rfl, rfl, rfl, rfl⟩
          next hev => exact ⟨_, rfl, rfl, rfl, rfl⟩
        next hne => exact ⟨ce, h, rfl, rfl, rfl⟩
      next hnv => exact ⟨ce, h, rfl, rfl, rfl⟩
    next hr => exact ⟨ce, h, rfl, rfl, rfl⟩

/-- Combined header-chain fact: `procHdrs` keeps `emails` and `mode`, keeps
the current message present, and changes `fromName` exactly on a `From:`
guarded match. -/
theorem procHdrs_current (line : String) (st : ParserState) (ce : PEmail)
    (h : st.current = some ce) :
    ∃ ce2 : PEmail, (procHdrs line st).current = some ce2
      ∧ (procHdrs line st).emails = st.emails
      ∧ (procHdrs line st).mode = st.mode
      ∧ ce2.fromName = (if pyStartsWith line "From:" && !(pyTruthyStr ce.fromName)
          then (extractField line "From").1 else ce.fromName) := by
  obtain ⟨ce1, hc1, he1, hm1, hf1⟩ := procFromTo_current line st ce h
  obtain ⟨ce2, hc2, he2, hm2, hf2⟩ := procDateRev_current line (procFromTo line st) ce1 hc1
  exact ⟨ce2, hc2, he2.trans he1, hm2.trans hm1, hf2.trans hf1⟩

/-- A message the flush will append: a `From` name is present and does not
match the filtered-sender list. -/
def nameOkCur (ce : PEmail) : Bool :=
  match ce.fromName with
  | none => false
  | some n => !(pyIsSkip n)

theorem flushInto_ok (emails : List PEmail) (ce : PEmail) (h : nameOkCur ce = true) :
    flushInto emails ce = .ok (emails ++ [ce]) := by
  unfold nameOkCur at h
  unfold flushInto
  cases hc : ce.fromName with
  | none =>
    rw [hc] at h
    simp at h
  | some n =>
    rw [hc] at h
    have hskip : pyIsSkip n = false := by simpa using h
    simp [hskip]

theorem parseLoop_cons (st : ParserState) (l : String) (ls : List String)
    (st2 : ParserState) (h : pstep st l = .ok st2) :
    parseLoop st (l :: ls) = parseLoop st2 ls := by
  simp only [parseLoop, h]

theorem pstep_normal_boundary (st : ParserState) (ce : PEmail) (l : String)
    (hmode : st.mode = PMode.normal) (hcur : st.current = some ce)
    (hb : isBoundary l = true) (hok : nameOkCur ce = true) :
    pstep st l = .ok { st with emails := st.emails ++ [ce], current := some freshEmail } := by
  simp only [pstep, hmode, hb, if_true, hcur, flushInto_ok st.emails ce hok]

theorem pstep_normal_subject (st : ParserState) (ce : PEmail) (l : String)
    (hmode : st.mode = PMode.normal) (hcur : st.current = some ce)
    (hnb : isBoundary l = false)
    (hs : (pyStartsWith l "Subject:" && decide (ce.subject = "")) = true) :
    pstep st l
      = .ok { st with mode := PMode.folding [(extractField l "Subject").1.getD ""] } := by
  simp only [pstep, hmode, hnb, Bool.false_eq_true, if_false, hcur, hs, if_true]

theorem pstep_normal_other (st : ParserState) (ce : PEmail) (l : String)
    (hmode : st.mode = PMode.normal) (hcur : st.current = some ce)
    (hnb : isBoundary l = false)
    (hns : (pyStartsWith l "Subject:" && decide (ce.subject = "")) = false) :
    pstep st l = .ok (procHdrs l st) := by
  simp only [pstep, hmode, hnb, Bool.false_eq_true, if_false, hcur, hns]

/-- The state at the end of subject folding: back to normal mode with the
joined subject stored. -/
def foldClose (acc : List String) (st : ParserState) : ParserState :=
  { st with mode := PMode.normal,
            current := st.current.map (fun ce => { ce with subject := String.intercalate " " acc }) }

theorem pstep_fold_blank (st : ParserState) (acc : List String) (l : String)
    (hmode : st.mode = PMode.folding acc) (ht : pyStrip l = "") :
    pstep st l = .ok (foldClose acc st) := by
  simp only [pstep, hmode, ht, if_true]
  rfl

theorem pstep_fold_rec (st : ParserState) (acc : List String) (l : String)
    (hmode : st.mode = PMode.folding acc) (ht : pyStrip l ≠ "")
    (hr : recognizedHdr (pyStrip l) = true) :
    pstep st l = .ok (procHdrs (pyStrip l) (foldClose acc st)) := by
  simp only [pstep, hmode, if_neg ht, hr, if_true]
  rfl

theorem recognized_not_subject (t : String) (hr : recognizedHdr t = true) :
    pyStartsWith t "Subject:" = false := by
  cases hx : pyStartsWith t "Subject:"
  · rfl
  · exfalso
    unfold recognizedHdr at hr
    rcases Bool.or_eq_true_iff.mp hr with h4 | hrb
    · rcases Bool.or_eq_true_iff.mp h4 with h3 | hd
      · rcases Bool.or_eq_true_iff.mp h3 with hf | hto
        · have := startsWith_head t "From:" "Subject:" hf hx (by decide) (by decide)
          revert this
          decide
        · have := startsWith_head t "To:" "Subject:" hto hx (by decide) (by decide)
          revert this
          decide
      · have := startsWith_head t "Date:" "Subject:" hd hx (by decide) (by decide)
        revert this
        decide
    · have := startsWith_head t "Reviewed-by:" "Subject:" hrb hx (by decide) (by decide)
      revert this
      decide

theorem subject_not_from (l : String) (hs : pyStartsWith l "Subject:" = true) :
    pyStartsWith l "From:" = false := by
  cases hx : pyStartsWith l "From:"
  · rfl
  · exfalso
    have := startsWith_head l "Subject:" "From:" hs hx (by decide) (by decide)
    revert this
    decide

/-! ## Well-formed mbox segments (amended C7) -/

/-- One mbox segment: a boundary-marker line followed by its header lines. -/
structure MSeg where
  marker : String
  body : List String

def segLines (sg : MSeg) : List String := sg.marker :: sg.body

/-- The mbox text formed by concatenating segments. -/
def mboxOf (segs : List MSeg) : List String := (segs.map segLines).flatten

/-- The line after a `Subject:` line must terminate folding at once: blank
or a recognized header. -/
def followCond : List String → Bool
  | [] => false
  | nl :: _ => (decide (pyStrip nl = "") || recognizedHdr (pyStrip nl))

/-- Every `Subject:`-starting line is immediately followed by a
fold-terminating line. -/
def subjFollow : List String → Bool
  | [] => true
  | l :: rest =>
    if pyStartsWith l "Subject:" then followCond rest && subjFollow rest
    else subjFollow rest

/-- The sender name a `From:` line carries (under either the raw line or
its stripped form, as the scanner may process it in normal mode or as a
folding terminator) does not match the filtered-sender list. -/
def fromLineOk (l : String) : Bool :=
  !(pyIsSkip ((extractField l "From").1.getD ""))
    && !(pyIsSkip ((extractField (pyStrip l) "From").1.getD ""))

/-- A well-formed segment: boundary marker; no boundary lines in the body;
subject folding terminates within the body; at least one `From:` header;
no `From:` header carries a filtered sender name. -/
def segOk (sg : MSeg) : Bool :=
  isBoundary sg.marker
    && sg.body.all (fun l => !(isBoundary l))
    && subjFollow sg.body
    && sg.body.any (fun l => pyStartsWith l "From:")
    && sg.body.all (fun l => if pyStartsWith (pyStrip l) "From:" then fromLineOk l else true)

theorem subjFollow_tail (l : String) (rest : List String)
    (h : subjFollow (l :: rest) = true) : subjFollow rest = true := by
  unfold subjFollow at h
  split at h
  · simp only [Bool.and_eq_true] at h
    exact h.2
  · exact h

theorem subjFollow_cons_subject (l : String) (rest : List String)
    (hs : pyStartsWith l "Subject:" = true) (h : subjFollow (l :: rest) = true) :
    followCond rest = true ∧ subjFollow rest = true := by
  unfold subjFollow at h
  rw [if_pos hs] at h
  simp only [Bool.and_eq_true] at h
  exact h

theorem inv_left_of_truthy (ce : PEmail) (P : Prop)
    (hinv : nameOkCur ce = true ∨ (ce.fromName = none ∧ P))
    (htr : pyTruthyStr ce.fromName = true) : nameOkCur ce = true := by
  rcases hinv with h | ⟨hn, _⟩
  · exact h
  · rw [hn] at htr
    cases htr

theorem from_prefix_colon (l : String) (h : pyStartsWith l "From:" = true) :
    pyStartsWith (pyStrip l) ("From" ++ ":") = true := by
  have := pyStrip_startsWith l "From:" (by decide) (by decide) (by decide) h
  exact this

/-- A processed `From:` line (raw or stripped form startsWith) yields an
unfiltered extracted name when the segment condition holds. -/
theorem nameOk_of_from (l : String) (hF : pyStartsWith l "From:" = true)
    (hok : (if pyStartsWith (pyStrip l) "From:" then fromLineOk l else true) = true) :
    ∃ nm : String, (extractField l "From").1 = some nm ∧ pyIsSkip nm = false := by
  have hstrip : pyStartsWith (pyStrip l) "From:" = true :=
    pyStrip_startsWith l "From:" (by decide) (by decide) (by decide) hF
  rw [if_pos hstrip] at hok
  obtain ⟨nm, hnm⟩ := extractField_name_isSome l "From" (from_prefix_colon l hF)
  refine ⟨nm, hnm, ?_⟩
  unfold fromLineOk at hok
  simp only [Bool.and_eq_true] at hok
  have h1 := hok.1
  rw [hnm] at h1
  simpa using h1

theorem nameOk_of_from_fold (nl : String)
    (hFt : pyStartsWith (pyStrip nl) "From:" = true)
    (hok : (if pyStartsWith (pyStrip nl) "From:" then fromLineOk nl else true) = true) :
    ∃ nm : String, (extractField (pyStrip nl) "From").1 = some nm
      ∧ pyIsSkip nm = false := by
  rw [if_pos hFt] at hok
  unfold fromLineOk at hok
  simp only [Bool.and_eq_true] at hok
  have h2 := hok.2
  obtain ⟨nm, hnm⟩ := extractField_name_isSome (pyStrip nl) "From"
    (pyStrip_startsWith (pyStrip nl) "From:" (by decide) (by decide) (by decide) hFt)
  refine ⟨nm, hnm, ?_⟩
  rw [hnm] at h2
  simpa using h2

theorem nameOkCur_congr (ce2 ce : PEmail) (h : ce2.fromName = ce.fromName) :
    nameOkCur ce2 = nameOkCur ce := by
  unfold nameOkCur
  rw [h]

/-- How one header-chain application moves the flushability invariant. -/
theorem inv_step_hdr (line : String) (ce ce2 : PEmail) (P : Prop)
    (hf2 : ce2.fromName = (if pyStartsWith line "From:" && !(pyTruthyStr ce.fromName)
        then (extractField line "From").1 else ce.fromName))
    (hNg : pyStartsWith line "From:" = true →
        ∃ nm : String, (extractField line "From").1 = some nm ∧ pyIsSkip nm = false)
    (hinv : nameOkCur ce = true ∨ (ce.fromName = none ∧ P)) :
    (pyStartsWith line "From:" = true → nameOkCur ce2 = true)
    ∧ (pyStartsWith line "From:" = false → ce2.fromName = ce.fromName) := by
  constructor
  · intro hF
    by_cases htr : pyTruthyStr ce.fromName = true
    · have hok := inv_left_of_truthy ce P hinv htr
      have hg : (pyStartsWith line "From:" && !(pyTruthyStr ce.fromName)) = false := by
        simp [htr]
      rw [hg] at hf2
      simp only [Bool.false_eq_true, if_false] at hf2
      rw [nameOkCur_congr ce2 ce hf2]
      exact hok
    · have htrf : pyTruthyStr ce.fromName = false := by simpa using htr
      have hg : (pyStartsWith line "From:" && !(pyTruthyStr ce.fromName)) = true := by
        simp [hF, htrf]
      rw [hg] at hf2
      simp only [if_true] at hf2
      obtain ⟨nm, hnm, hsk⟩ := hNg hF
      unfold nameOkCur
      rw [hf2, hnm]
      simp [hsk]
  · intro hF
    have hg : (pyStartsWith line "From:" && !(pyTruthyStr ce.fromName)) = false := by
      simp [hF]
    rw [hg] at hf2
    simp only [Bool.false_eq_true, if_false] at hf2
    exact hf2

/-- Scanning a well-formed segment body: consumes exactly the body, stays
in normal mode, flushes nothing, and ends with a flushable current
message. -/
theorem bodyScan : ∀ (n : Nat) (body : List String), body.length ≤ n →
    ∀ (st : ParserState) (ce : PEmail),
    st.mode = PMode.normal →
    st.current = some ce →
    body.all (fun l => !(isBoundary l)) = true →
    subjFollow body = true →
    body.all (fun l => if pyStartsWith (pyStrip l) "From:" then fromLineOk l else true) = true →
    (nameOkCur ce = true ∨ (ce.fromName = none
        ∧ body.any (fun l => pyStartsWith l "From:") = true)) →
    ∃ (st2 : ParserState) (ce2 : PEmail),
      (∀ rest : List String, parseLoop st (body ++ rest) = parseLoop st2 rest)
      ∧ st2.mode = PMode.normal ∧ st2.current = some ce2
      ∧ st2.emails = st.emails ∧ nameOkCur ce2 = true := by
  intro n
  induction n with
  | zero =>
    intro body hlen st ce hmode hcur hnb hsf hfo hinv
    have hbody : body = [] := List.eq_nil_of_length_eq_zero (Nat.le_zero.mp hlen)
    subst hbody
    rcases hinv with hok | ⟨_, hany⟩
    · exact ⟨st, ce, fun rest => by simp, hmode, hcur, rfl, hok⟩
    · simp at hany
  | succ n ih =>
    intro body hlen st ce hmode hcur hnb hsf hfo hinv
    cases body with
    | nil =>
      rcases hinv with hok | ⟨_, hany⟩
      · exact ⟨st, ce, fun rest => by simp, hmode, hcur, rfl, hok⟩
      · simp at hany
    | cons l body1 =>
      simp only [List.all_cons, Bool.and_eq_true] at hnb hfo
      obtain ⟨hnbl, hnb1⟩ := hnb
      obtain ⟨hfol, hfo1⟩ := hfo
      have hnbl2 : isBoundary l = false := by simpa using hnbl
      by_cases hsubj : (pyStartsWith l "Subject:" && decide (ce.subject = "")) = true
      · -- folding is entered at l; the follower nl terminates it at once
        have hsl : pyStartsWith l "Subject:" = true := by
          simp only [Bool.and_eq_true] at hsubj
          exact hsubj.1
        obtain ⟨hfc, hsf1⟩ := subjFollow_cons_subject l body1 hsl hsf
        cases body1 with
        | nil => simp [followCond] at hfc
        | cons nl body2 =>
          have hlF : pyStartsWith l "From:" = false := subject_not_from l hsl
          simp only [List.all_cons, Bool.and_eq_true] at hnb1 hfo1
          obtain ⟨hnbnl, hnb2⟩ := hnb1
          obtain ⟨hfonl, hfo2⟩ := hfo1
          have hlen2 : body2.length ≤ n := by
            simp only [List.length_cons] at hlen
            omega
          have hstep1 := pstep_normal_subject st ce l hmode hcur hnbl2 hsubj
          set acc0 : List String := [(extractField l "Subject").1.getD ""] with hacc0
          set st1 : ParserState := { st with mode := PMode.folding acc0 } with hst1
          set ce1 : PEmail := { ce with subject := String.intercalate " " acc0 } with hce1
          have hcemf : ce1.fromName = ce.fromName := by rw [hce1]
          have hfcnl : (decide (pyStrip nl = "") || recognizedHdr (pyStrip nl)) = true := by
            simpa [followCond] using hfc
          have hcur2 : (foldClose acc0 st1).current = some ce1 := by
            simp [foldClose, hst1, hcur, hce1]
          have hmode2 : (foldClose acc0 st1).mode = PMode.normal := by
            simp [foldClose]
          have hemails2 : (foldClose acc0 st1).emails = st.emails := by
            simp [foldClose, hst1]
          by_cases hblank : pyStrip nl = ""
          · -- blank terminator: nl consumed, no header processing this step
            have hnlSubj : pyStartsWith nl "Subject:" = false :=
              blank_not_startsWith nl "Subject:" (by decide) (by decide) (by decide) hblank
            have hnlF : pyStartsWith nl "From:" = false :=
              blank_not_startsWith nl "From:" (by decide) (by decide) (by decide) hblank
            have hstep2 := pstep_fold_blank st1 acc0 nl (by rw [hst1]) hblank
            have hsf2 : subjFollow body2 = true := by
              unfold subjFollow at hsf1
              rw [if_neg (by simp [hnlSubj])] at hsf1
              exact hsf1
            have hinv2 : nameOkCur ce1 = true ∨ (ce1.fromName = none
                ∧ body2.any (fun s => pyStartsWith s "From:") = true) := by
              rcases hinv with hok | ⟨hnone, hany⟩
              · left
                rw [nameOkCur_congr ce1 ce hcemf]
                exact hok
              · right
                refine ⟨by rw [hcemf]; exact hnone, ?_⟩
                simp only [List.any_cons, hlF, hnlF, Bool.false_or] at hany
                exact hany
            obtain ⟨st2, ce2, htrans, hm2, hc2, he2, hok2⟩ :=
              ih body2 hlen2 (foldClose acc0 st1) ce1 hmode2 hcur2 hnb2 hsf2 hfo2 hinv2
            refine ⟨st2, ce2, ?_, hm2, hc2, by rw [he2, hemails2], hok2⟩
            intro rest
            have e1 : parseLoop st ((l :: nl :: body2) ++ rest)
                = parseLoop st1 ((nl :: body2) ++ rest) := by
              simp only [List.cons_append]
              exact parseLoop_cons st l _ st1 hstep1
            have e2 : parseLoop st1 ((nl :: body2) ++ rest)
                = parseLoop (foldClose acc0 st1) (body2 ++ rest) := by
              simp only [List.cons_append]
              exact parseLoop_cons st1 nl _ _ hstep2
            rw [e1, e2, htrans rest]
          · -- recognized-header terminator: nl is re-processed as `line`
            have hrec : recognizedHdr (pyStrip nl) = true := by
              rcases Bool.or_eq_true_iff.mp hfcnl with hb | hr
              · exact absurd (of_decide_eq_true hb) hblank
              · exact hr
            have hstep2 := pstep_fold_rec st1 acc0 nl (by rw [hst1]) hblank hrec
            obtain ⟨ce2', hc2', he2', hm2', hf2'⟩ :=
              procHdrs_current (pyStrip nl) (foldClose acc0 st1) ce1 hcur2
            have hmode2' : (procHdrs (pyStrip nl) (foldClose acc0 st1)).mode
                = PMode.normal := by
              rw [hm2', hmode2]
            have hemails2' : (procHdrs (pyStrip nl) (foldClose acc0 st1)).emails
                = st.emails := by
              rw [he2', hemails2]
            have hnlSubj : pyStartsWith nl "Subject:" = false := by
              cases hx : pyStartsWith nl "Subject:"
              · rfl
              · exfalso
                have hsp := pyStrip_startsWith nl "Subject:" (by decide) (by decide)
                  (by decide) hx
                rw [recognized_not_subject (pyStrip nl) hrec] at hsp
                cases hsp
            have hsf2 : subjFollow body2 = true := by
              unfold subjFollow at hsf1
              rw [if_neg (by simp [hnlSubj])] at hsf1
              exact hsf1
            have hinv1 : nameOkCur ce1 = true ∨ (ce1.fromName = none
                ∧ (pyStartsWith nl "From:" = true
                    ∨ body2.any (fun s => pyStartsWith s "From:") = true)) := by
              rcases hinv with hok | ⟨hnone, hany⟩
              · left
                rw [nameOkCur_congr ce1 ce hcemf]
                exact hok
              · right
                refine ⟨by rw [hcemf]; exact hnone, ?_⟩
                simp only [List.any_cons, hlF, Bool.false_or, Bool.or_eq_true_iff] at hany
                exact hany
            have hstepinv := inv_step_hdr (pyStrip nl) ce1 ce2' _ hf2'
              (fun hF => nameOk_of_from_fold nl hF hfonl) hinv1
            have hinv2 : nameOkCur ce2' = true ∨ (ce2'.fromName = none
                ∧ body2.any (fun s => pyStartsWith s "From:") = true) := by
              by_cases hFt : pyStartsWith (pyStrip nl) "From:" = true
              · exact Or.inl (hstepinv.1 hFt)
              · have hFtf : pyStartsWith (pyStrip nl) "From:" = false := by simpa using hFt
                have hnlF : pyStartsWith nl "From:" = false := by
                  cases hx : pyStartsWith nl "From:"
                  · rfl
                  · exfalso
                    have := pyStrip_startsWith nl "From:" (by decide) (by decide)
                      (by decide) hx
                    rw [hFtf] at this
                    cases this
                have hch := hstepinv.2 hFtf
                rcases hinv1 with hok | ⟨hnone, hany⟩
                · left
                  rw [nameOkCur_congr ce2' ce1 hch]
                  exact hok
                · right
                  refine ⟨by rw [hch]; exact hnone, ?_⟩
                  rcases hany with hnl | hb2
                  · rw [hnlF] at hnl
                    cases hnl
                  · exact hb2
            obtain ⟨st2, ce2, htrans, hm2, hc2, he2, hok2⟩ :=
              ih body2 hlen2 (procHdrs (pyStrip nl) (foldClose acc0 st1)) ce2'
                hmode2' hc2' hnb2 hsf2 hfo2 hinv2
            refine ⟨st2, ce2, ?_, hm2, hc2, by rw [he2, hemails2'], hok2⟩
            intro rest
            have e1 : parseLoop st ((l :: nl :: body2) ++ rest)
                = parseLoop st1 ((nl :: body2) ++ rest) := by
              simp only [List.cons_append]
              exact parseLoop_cons st l _ st1 hstep1
            have e2 : parseLoop st1 ((nl :: body2) ++ rest)
                = parseLoop (procHdrs (pyStrip nl) (foldClose acc0 st1)) (body2 ++ rest) := by
              simp only [List.cons_append]
              exact parseLoop_cons st1 nl _ _ hstep2
            rw [e1, e2, htrans rest]
      · -- no folding: one line, the header chains run on the raw line
        have hsubjf : (pyStartsWith l "Subject:" && decide (ce.subject = "")) = false := by
          simpa using hsubj
        have hstep1 := pstep_normal_other st ce l hmode hcur hnbl2 hsubjf
        obtain ⟨ce2', hc2', he2', hm2', hf2'⟩ := procHdrs_current l st ce hcur
        have hmode1 : (procHdrs l st).mode = PMode.normal := by rw [hm2', hmode]
        have hemails1 : (procHdrs l st).emails = st.emails := by rw [he2']
        have hlen1 : body1.length ≤ n := by
          simp only [List.length_cons] at hlen
          omega
        have hsf1 : subjFollow body1 = true := subjFollow_tail l body1 hsf
        have hstepinv := inv_step_hdr l ce ce2' _ hf2'
          (fun hF => nameOk_of_from l hF hfol) hinv
        have hinv1 : nameOkCur ce2' = true ∨ (ce2'.fromName = none
            ∧ body1.any (fun s => pyStartsWith s "From:") = true) := by
          by_cases hFl : pyStartsWith l "From:" = true
          · exact Or.inl (hstepinv.1 hFl)
          · have hFlf : pyStartsWith l "From:" = false := by simpa using hFl
            have hch := hstepinv.2 hFlf
            rcases hinv with hok | ⟨hnone, hany⟩
            · left
              rw [nameOkCur_congr ce2' ce hch]
              exact hok
            · right
              refine ⟨by rw [hch]; exact hnone, ?_⟩
              simp only [List.any_cons, hFlf, Bool.false_or] at hany
              exact hany
        obtain ⟨st2, ce2, htrans, hm2, hc2, he2, hok2⟩ :=
          ih body1 hlen1 (procHdrs l st) ce2' hmode1 hc2' hnb1 hsf1 hfo1 hinv1
        refine ⟨st2, ce2, ?_, hm2, hc2, by rw [he2, hemails1], hok2⟩
        intro rest
        have e1 : parseLoop st ((l :: body1) ++ rest)
            = parseLoop (procHdrs l st) (body1 ++ rest) := by
          simp only [List.cons_append]
          exact parseLoop_cons st l _ _ hstep1
        rw [e1, htrans rest]

theorem pstep_normal_boundary_none (st : ParserState) (l : String)
    (hmode : st.mode = PMode.normal) (hcur : st.current = none)
    (hb : isBoundary l = true) :
    pstep st l = .ok { st with current := some freshEmail } := by
  simp only [pstep, hmode, hb, if_true, hcur]

/-- Scanning a sequence of well-formed segments from a state whose open
message is flushable: each boundary marker flushes exactly one message,
and the scan ends in normal mode with a flushable open message. -/
theorem segChain : ∀ (segs : List MSeg) (st : ParserState) (ce : PEmail),
    st.mode = PMode.normal → st.current = some ce → nameOkCur ce = true →
    (∀ sg ∈ segs, segOk sg = true) →
    ∃ (st2 : ParserState) (ce2 : PEmail),
      (∀ rest : List String, parseLoop st (mboxOf segs ++ rest) = parseLoop st2 rest)
      ∧ st2.mode = PMode.normal ∧ st2.current = some ce2
      ∧ st2.emails.length = st.emails.length + segs.length
      ∧ nameOkCur ce2 = true := by
  intro segs
  induction segs with
  | nil =>
    intro st ce hmode hcur hok _
    exact ⟨st, ce, fun rest => by simp [mboxOf], hmode, hcur, by simp, hok⟩
  | cons sg segs1 ih =>
    intro st ce hmode hcur hok hall
    have hsg : segOk sg = true := hall sg (by simp)
    unfold segOk at hsg
    simp only [Bool.and_eq_true] at hsg
    obtain ⟨⟨⟨⟨hmk, hnb⟩, hsf⟩, hany⟩, hfo⟩ := hsg
    have hstepA := pstep_normal_boundary st ce sg.marker hmode hcur hmk hok
    set stA : ParserState :=
      { st with emails := st.emails ++ [ce], current := some freshEmail } with hstA
    have hmodeA : stA.mode = PMode.normal := by rw [hstA]; exact hmode
    have hcurA : stA.current = some freshEmail := by rw [hstA]
    have hinvA : nameOkCur freshEmail = true ∨ (freshEmail.fromName = none
        ∧ sg.body.any (fun l => pyStartsWith l "From:") = true) :=
      Or.inr ⟨rfl, hany⟩
    obtain ⟨stB, ceB, htrB, hmB, hcB, heB, hokB⟩ :=
      bodyScan sg.body.length sg.body (Nat.le_refl _) stA freshEmail
        hmodeA hcurA hnb hsf hfo hinvA
    obtain ⟨st2, ce2, htr2, hm2, hc2, hlen2, hok2⟩ :=
      ih stB ceB hmB hcB hokB (fun s hs => hall s (by simp [hs]))
    refine ⟨st2, ce2, ?_, hm2, hc2, ?_, hok2⟩
    · intro rest
      have e0 : mboxOf (sg :: segs1) ++ rest
          = sg.marker :: (sg.body ++ (mboxOf segs1 ++ rest)) := by
        simp [mboxOf, segLines]
      rw [e0, parseLoop_cons st sg.marker _ stA hstepA, htrB (mboxOf segs1 ++ rest),
        htr2 rest]
    · rw [hlen2, heB, hstA]
      simp only [List.length_append, List.length_cons, List.length_nil]
      omega

/-- Each well-formed segment contributes exactly its marker to the
boundary-line count of the concatenated text. -/
theorem mbox_boundary_count : ∀ (segs : List MSeg),
    (∀ sg ∈ segs, segOk sg = true) →
    ((mboxOf segs).filter isBoundary).length = segs.length := by
  intro segs
  induction segs with
  | nil => intro _; rfl
  | cons sg segs1 ih =>
    intro hall
    have hsg : segOk sg = true := hall sg (by simp)
    unfold segOk at hsg
    simp only [Bool.and_eq_true] at hsg
    obtain ⟨⟨⟨⟨hmk, hnb⟩, _⟩, _⟩, _⟩ := hsg
    have e0 : mboxOf (sg :: segs1) = (sg.marker :: sg.body) ++ mboxOf segs1 := by
      simp [mboxOf, segLines]
    have hbodynil : sg.body.filter isBoundary = [] := by
      rw [List.filter_eq_nil_iff]
      intro a ha
      have := List.all_eq_true.mp hnb a ha
      simpa using this
    rw [e0, List.filter_append, List.filter_cons_of_pos hmk, hbodynil]
    simp only [List.cons_append, List.nil_append, List.length_cons]
    rw [ih (fun s hs => hall s (by simp [hs]))]

/-- C7 (amended): the original claim fails on arbitrary mbox texts with N
boundary markers and no filtered senders (see the counterexample: a
From-less message makes the boundary flush raise `TypeError`, discarding
everything parsed so far).  It holds over well-formed segments: for an
mbox text that is a concatenation of N >= 1 segments, each a
boundary-marker line followed by boundary-free header lines that contain
at least one `From:` header, no filtered sender name, and only
immediately-terminated subject folds, the text contains exactly N
boundary-marker lines and the splitter produces exactly N parsed
messages: each boundary line after the first flushes the previous message
and starts a new one, and end of input flushes the last open message. -/
theorem c7_splitter_amended (sg0 : MSeg) (segs : List MSeg)
    (hok : ∀ sg ∈ sg0 :: segs, segOk sg = true) :
    ((mboxOf (sg0 :: segs)).filter isBoundary).length = segs.length + 1
    ∧ (parse_emails_from_mbx (mboxOf (sg0 :: segs))).length = segs.length + 1 := by
  constructor
  · rw [mbox_boundary_count (sg0 :: segs) hok]
    simp
  · have hsg0 : segOk sg0 = true := hok sg0 (by simp)
    unfold segOk at hsg0
    simp only [Bool.and_eq_true] at hsg0
    obtain ⟨⟨⟨⟨hmk0, hnb0⟩, hsf0⟩, hany0⟩, hfo0⟩ := hsg0
    have hstep1 := pstep_normal_boundary_none initPS sg0.marker rfl rfl hmk0
    set stA : ParserState := { initPS with current := some freshEmail } with hstA
    have hinvA : nameOkCur freshEmail = true ∨ (freshEmail.fromName = none
        ∧ sg0.body.any (fun l => pyStartsWith l "From:") = true) :=
      Or.inr ⟨rfl, hany0⟩
    obtain ⟨stB, ceB, htrB, hmB, hcB, heB, hokB⟩ :=
      bodyScan sg0.body.length sg0.body (Nat.le_refl _) stA freshEmail
        rfl rfl hnb0 hsf0 hfo0 hinvA
    obtain ⟨stC, ceC, htrC, hmC, hcC, hlenC, hokC⟩ :=
      segChain segs stB ceB hmB hcB hokB (fun s hs => hok s (by simp [hs]))
    have hend : parseLoop stC []
        = ({ stC with emails := stC.emails ++ [ceC] }, none) := by
      simp only [parseLoop, hmC, hcC, flushInto_ok stC.emails ceC hokC]
    have hfull : parseLoop initPS (mboxOf (sg0 :: segs))
        = ({ stC with emails := stC.emails ++ [ceC] }, none) := by
      have e0 : mboxOf (sg0 :: segs) = sg0.marker :: (sg0.body ++ mboxOf segs) := by
        simp [mboxOf, segLines]
      rw [e0, parseLoop_cons initPS sg0.marker _ stA hstep1, htrB (mboxOf segs),
        ← List.append_nil (mboxOf segs), htrC [], hend]
    have hp : parse_emails_from_mbx (mboxOf (sg0 :: segs)) = stC.emails ++ [ceC] := by
      unfold parse_emails_from_mbx parseBodyE
      rw [hfull]
    rw [hp]
    have hB0 : stB.emails.length = 0 := by
      rw [heB, hstA]
      rfl
    rw [hB0] at hlenC
    simp only [List.length_append, List.length_cons, List.length_nil]
    omega

def c7SegA : MSeg :=
  { marker := "From mboxrd@z Thu Jan  1 00:00:00 1970",
    body := ["From: Alice <alice@example.com>"] }

def c7SegB : MSeg :=
  { marker := "From mboxrd@z Thu Jan  1 00:00:01 1970",
    body := ["From: Bob <bob@example.com>"] }

theorem c7_splitter_amended_witness :
    (∀ sg ∈ c7SegA :: [c7SegB], segOk sg = true)
    ∧ ((mboxOf (c7SegA :: [c7SegB])).filter isBoundary).length = 2
    ∧ (parse_emails_from_mbx (mboxOf (c7SegA :: [c7SegB]))).length = 2 := by
  refine ⟨by decide, ?_, ?_⟩
  · exact (c7_splitter_amended c7SegA [c7SegB] (by decide)).1
  · exact (c7_splitter_amended c7SegA [c7SegB] (by decide)).2

end PatchFetcher
